import Mathlib

/-
Shallow embedding of the configuration-pipeline generator
(deeppavlov/pipeline_manager/pipegen.py) and of the document lookup of
deeppavlov/dataset_iterators/sqlite_iterator.py.

Python dicts are modelled as insertion-ordered association lists over a
JSON-like value type; itertools.product over the axis lists becomes an
explicit Cartesian product; in-place mutation is modelled by returning the
updated value, and the two places where object identity (aliasing) is
observable are given dedicated heap-aware models further below.
-/

/-- JSON-like values modelling the Python objects stored inside config dicts. -/
inductive Val where
  | vNull : Val
  | vBool : Bool → Val
  | vInt : Int → Val
  | vStr : String → Val
  | vList : List Val → Val
  | vDict : List (String × Val) → Val

/-- A Python dict (insertion-ordered mapping from string keys to values). -/
abbrev Comp := List (String × Val)

/-- Dict lookup `d[k]` / `d.get(k)`: the value of the first entry with key `k`. -/
def dget (d : Comp) (k : String) : Option Val :=
  (d.find? (fun p => p.1 == k)).map (fun p => p.2)

/-- Membership test `k in d.keys()`. -/
def hasKey (d : Comp) (k : String) : Bool :=
  d.any (fun p => p.1 == k)

/-- Dict assignment `d[k] = v`: replaces the value of the entry with key `k`
in place (Python keeps the key at its insertion position; keys of a Python
dict are unique, so replacing the first occurrence is exact), else appends a
new entry. -/
def dset : Comp → String → Val → Comp
  | [], k, v => [(k, v)]
  | p :: rest, k, v => if p.1 == k then (k, v) :: rest else p :: dset rest k v

/-- Python truthiness of an `Optional[dict]` stage candidate: `None` and the
empty dict are falsy. -/
def truthy : Option Comp → Bool
  | some c => !c.isEmpty
  | none => false

/-- Last segment of `s.split('/')`, i.e. `s.split('/')[-1]`: the characters
after the last `'/'` (the whole string when it has none; empty when it ends
with `'/'`), stated on the character data so that concrete instances reduce
by evaluation. -/
def lastSegment (s : String) : String :=
  ⟨(s.data.reverse.takeWhile (fun c => c != '/')).reverse⟩

/-- Test whether a string starts with the separator character, i.e. Python's
`s.startswith('/')` (stated on the character data for provability). -/
def startsSlash (s : String) : Bool := s.data.head? == some '/'

/-- Test whether a string ends with the separator character, i.e. Python's
`s.endswith('/')` (stated on the character data for provability). -/
def endsSlash (s : String) : Bool := s.data.getLast? == some '/'

/-- One step of `posixpath.join`: an absolute component resets the path,
otherwise a separator is inserted unless the accumulator is empty or already
ends with one. -/
def joinOne (acc b : String) : String :=
  if startsSlash b then b
  else if acc == "" || endsSlash acc then acc ++ b
  else acc ++ "/" ++ b

/-- `os.path.join(root, rest...)` on POSIX. -/
def joinPath (root : String) (rest : List String) : String := rest.foldl joinOne root

/-- Modelled from the spec: `expand_path` is an external path-expansion
utility (deeppavlov.core.commands.utils, not part of this excerpt; spec lists
path-expansion utilities as out of scope external interfaces). It is modelled
as the identity, so the save root below always denotes the already-expanded
root directory. -/
def expandPath (s : String) : String := s

/-- The `pipe_{n+1}` directory name for 0-based pipeline index `n`. -/
def pipeDir (n : Nat) : String := "pipe_" ++ toString (n + 1)

/-- New save/load path of the `main` component (pipegen.py lines 296-311):
`join(expand_path(save_path), dataset_name, 'pipe_{n+1}', last-segment)` and,
under test mode, with an extra `tmp` segment right after the root. -/
def newMainPath (savePath dsName : String) (n : Nat) (testMode : Bool) (old : String) : String :=
  if testMode then joinPath (expandPath savePath) ["tmp", dsName, pipeDir n, lastSegment old]
  else joinPath (expandPath savePath) [dsName, pipeDir n, lastSegment old]

/-- New save path of a non-`main` component (pipegen.py lines 313-320): no
`pipe_{n+1}` level. -/
def newAuxPath (savePath dsName : String) (testMode : Bool) (old : String) : String :=
  if testMode then joinPath (expandPath savePath) ["tmp", dsName, lastSegment old]
  else joinPath (expandPath savePath) [dsName, lastSegment old]

/-- Test for `component.get('main') is True` (identity with the `True` object,
so only an actual boolean `True` qualifies). -/
def isTrueVal : Option Val → Bool
  | some (.vBool true) => true
  | _ => false

/-- Extracts a string value; used for `component.get('save_path', None) is not
None` followed by `.split('/')`: a missing key or a `None` value skips the
rewrite. A present non-string, non-null value raises `AttributeError` in
Python at `.split`; that corner is outside the modelled domain and is left
unchanged here (no claim exercises it). -/
def strVal : Option Val → Option String
  | some (.vStr s) => some s
  | _ => none

/-- Path rewriting of one component (body of the loop of
`PipeGen.change_load_path`, pipegen.py lines 292-321). The `main` component
has both `save_path` and `load_path` rewritten one directory deeper
(`pipe_{n+1}`); other components only have `save_path` rewritten. -/
def changeLoadPathComp (n : Nat) (savePath dsName : String) (testMode : Bool) (c : Comp) : Comp :=
  if isTrueVal (dget c "main") then
    let c1 := match strVal (dget c "save_path") with
      | some sp => dset c "save_path" (.vStr (newMainPath savePath dsName n testMode sp))
      | none => c
    match strVal (dget c1 "load_path") with
      | some lp => dset c1 "load_path" (.vStr (newMainPath savePath dsName n testMode lp))
      | none => c1
  else
    match strVal (dget c "save_path") with
    | some sp => dset c "save_path" (.vStr (newAuxPath savePath dsName testMode sp))
    | none => c

/-- `PipeGen.change_load_path` (pipegen.py lines 273-322): rewrites every
component of the chainer content and returns the list. -/
def changeLoadPath (cfg : List Comp) (n : Nat) (savePath dsName : String) (testMode : Bool) :
    List Comp :=
  cfg.map (changeLoadPathComp n savePath dsName testMode)

/-- Python's `s.startswith(pre)`, stated on the character data so that
concrete instances reduce by evaluation. -/
def strStarts (pre s : String) : Bool := s.data.take pre.data.length == pre.data

/-- Does a parameter value carry a random-search directive, i.e. is it a dict
one of whose keys starts with `random_` (pipegen.py lines 217-221)? -/
def hasRandomKey : Val → Bool
  | .vDict entries => entries.any (fun q => strStarts "random_" q.1)
  | _ => false

/-- A component is searchable when any of its top-level parameter values is a
dict containing a `random_`-prefixed key (pipegen.py lines 215-221). -/
def isSearchable (c : Comp) : Bool := c.any (fun p => hasRandomKey p.2)

/-- The `N` samples drawn for one searchable component: `sample_gen` is a
fresh `ParamsSearch(prefix="random", seed=42)` per raw variant, modelled from
the spec as a deterministic pure function `sample` of the running call index
within the variant and the component (spec: the external ParamSampler returns
one concrete sampling and is deterministic given a seed). -/
def sampleRun (sample : Nat → Comp → Comp) (k n : Nat) (c : Comp) : List Comp :=
  (List.range n).map (fun i => sample (k + i) c)

/-- Axis construction of `PipeGen.random_conf_gen` (pipegen.py lines 211-231):
falsy candidates contribute no axis, searchable components contribute `N`
samples, other components a single-element axis. The second argument threads
the sampler call counter. -/
def randomAxes (sample : Nat → Comp → Comp) (n : Nat) :
    List (Option Comp) → Nat → List (List Comp)
  | [], _ => []
  | cand :: rest, k =>
    match cand with
    | some c =>
      if c.isEmpty then randomAxes sample n rest k
      else if isSearchable c then sampleRun sample k n c :: randomAxes sample n rest (k + n)
      else [c] :: randomAxes sample n rest k
    | none => randomAxes sample n rest k

/-- `itertools.product(*ls)` as a list of choice lists, in the standard order
(last axis varies fastest). -/
def listProd {α : Type} : List (List α) → List (List α)
  | [] => [[]]
  | xs :: rest => xs.flatMap (fun x => (listProd rest).map (fun t => x :: t))

/-- `PipeGen.random_conf_gen` (pipegen.py lines 200-234): the product of the
per-component axes. -/
def randomConfGen (sample : Nat → Comp → Comp) (n : Nat) (pv : List (Option Comp)) :
    List (List Comp) :=
  listProd (randomAxes sample n pv 0)

/-- One grid axis from a parameter value: a dict value containing key
`grid_search` with a list of literal values yields an axis of (value, stage
index, parameter key) triples (pipegen.py lines 252-260). A present
`grid_search` that is not a list is iterated by Python; that corner is
outside the modelled domain. -/
def gridAxisOfEntry (i : Nat) (key : String) : Val → Option (List (Val × Nat × String))
  | .vDict entries =>
    match dget entries "grid_search" with
    | some (.vList vs) => some (vs.map (fun v => (v, i, key)))
    | _ => none
  | _ => none

/-- The grid axes (`list_of_variants`) of `PipeGen.grid_conf_gen` (pipegen.py
lines 248-262): non-null components scanned in order, keys in insertion
order. -/
def gridAxes (pv : List (Option Comp)) : List (List (Val × Nat × String)) :=
  pv.enum.flatMap (fun ic =>
    match ic.2 with
    | some c => c.filterMap (fun p => gridAxisOfEntry ic.1 p.1 p.2)
    | none => [])

/-- `search_conf[i][key] = value` (pipegen.py line 270). -/
def applyAssign : List (Option Comp) → Nat → String → Val → List (Option Comp)
  | [], _, _, _ => []
  | cand :: rest, 0, key, v => (cand.map (fun c => dset c key v)) :: rest
  | cand :: rest, i + 1, key, v => cand :: applyAssign rest i key v

/-- Applies one full combination of grid assignments to a (deep-copied)
candidate list (pipegen.py lines 267-270). -/
def applyAssigns (pv : List (Option Comp)) (asn : List (Val × Nat × String)) :
    List (Option Comp) :=
  asn.foldl (fun acc a => applyAssign acc a.2.1 a.2.2 a.1) pv

/-- `PipeGen.grid_conf_gen` (pipegen.py lines 237-271): one deep copy of the
candidate list per combination of the grid axes, with the flagged locations
overwritten. -/
def gridConfGen (pv : List (Option Comp)) : List (List (Option Comp)) :=
  (listProd (gridAxes pv)).map (applyAssigns pv)

/-- The generator state after a successful `PipeGen.__init__`:
`self.dataset_reader`, `self.main_config['dataset_iterator']`,
`self.train_config`, `self.chainer`, `self.structure` (= `chainer['pipe']`),
mode, test flag, save root, `self.N` and the optional retained
`metadata` block of `self.main_config`. -/
structure GenState where
  datasetReader : Val
  datasetIterator : Val
  trainConfig : Comp
  chainer : Comp
  struct : List (List (Option Comp))
  mode : String
  testMode : Bool
  savePath : String
  sampleN : Nat
  metadata : Option Val

/-- The dataset-reader axis `drs` (pipegen.py lines 127-132): a list-valued
`dataset_reader` contributes each entry, anything else a single-element
axis. -/
def buildDrs : Val → List Val
  | .vList xs => xs
  | v => [v]

/-- The train-config axis `bss` (pipegen.py lines 134-144). The source makes
one `deepcopy` of the train block before the loop and appends that same
`bs_conf` object after each in-place `batch_size` assignment, so with a
list-valued `batch_size` every appended entry is the one shared copy whose
final `batch_size` is the last list element; this value-level model records
exactly the resulting values (the heap-aware model `buildBssAlloc` below
additionally records the aliasing). An empty `batch_size` list yields an
empty axis. -/
def buildBss (train : Comp) : List Comp :=
  match dget train "batch_size" with
  | some (.vList bsList) =>
    match bsList.getLast? with
    | some lastBs => bsList.map (fun _ => dset train "batch_size" lastBs)
    | none => []
  | some _ => [train]
  | none => [train]

/-- A raw variant: one dataset reader, one train config and one candidate per
stage (`variant[0]`, `variant[1]`, `variant[2:]` in pipegen.py lines
163-166). -/
structure Variant where
  dr : Val
  train : Comp
  pv : List (Option Comp)

/-- `PipeGen.pipeline_enumeration` (pipegen.py lines 120-152):
`itertools.product(drs, bss, *stages)` in nested lexicographic order. -/
def pipelineEnumeration (s : GenState) : List Variant :=
  (buildDrs s.datasetReader).flatMap (fun dr =>
    (buildBss s.trainConfig).flatMap (fun bs =>
      (listProd s.struct).map (fun pv => ⟨dr, bs, pv⟩)))

/-- Python exceptions other than `ConfigError` that generation can raise. -/
inductive PyErr where
  | keyErr : String → PyErr
  | attrErr : PyErr
  | typeErr : PyErr

/-- `dr_config['data_path'].split('/')[-1]` (pipegen.py lines 177, 192): the
dataset display name, or the Python exception the expression raises. -/
def getDataPath : Val → Except PyErr String
  | .vDict d =>
    match dget d "data_path" with
    | some (.vStr s) => .ok (lastSegment s)
    | some _ => .error .attrErr
    | none => .error (.keyErr "data_path")
  | _ => .error .typeErr

/-- Encodes a rewritten component list back into the `chainer['pipe']`
value. -/
def compsToVal (cs : List Comp) : Val := .vList (cs.map .vDict)

/-- The value, at the moment of yield, of one configuration assembled by
`PipeGen.pipeline_gen` (pipegen.py lines 170-181): `dataset_reader` is a deep
copy of the variant's reader, `dataset_iterator`, `train` and the `chainer`
dict are shared with the template (the sharing itself is modelled by
`pipelineGenShared` below), and `chainer['pipe']` has just been set to the
rewritten component list. -/
structure OutConfig where
  datasetReader : Val
  datasetIterator : Val
  chainer : Comp
  train : Comp
  metadata : Option Val

/-- Assembles one yielded configuration value (pipegen.py lines 170-180). -/
def mkOut (s : GenState) (dr : Val) (train : Comp) (comps : List Comp) : OutConfig :=
  { datasetReader := dr
  , datasetIterator := s.datasetIterator
  , chainer := dset s.chainer "pipe" (compsToVal comps)
  , train := train
  , metadata := s.metadata }

/-- Collects a candidate list that contains no `None` entries; `none` marks
the `AttributeError` that `change_load_path` raises on a null component
(`None.get`). -/
def allSome : List (Option Comp) → Option (List Comp)
  | [] => some []
  | some a :: rest => (allSome rest).map (fun t => a :: t)
  | none :: _rest => none

/-- The random-mode body of `PipeGen.pipeline_gen` for one raw variant
(pipegen.py lines 168-182): each expanded pipe is path-rewritten at the
current running index `p` and yielded; returns the yielded configurations and
the advanced counter. The dataset name is only computed when at least one
pipe is yielded, as in the source. -/
def runRandomVariant (s : GenState) (sample : Nat → Comp → Comp) (v : Variant) (p : Nat) :
    Except PyErr (List OutConfig × Nat) :=
  let pipes := randomConfGen sample s.sampleN v.pv
  if pipes.isEmpty then .ok ([], p)
  else
    match getDataPath v.dr with
    | .error e => .error e
    | .ok dsn =>
      .ok (pipes.enum.map (fun kp =>
            mkOut s v.dr v.train (changeLoadPath kp.2 (p + kp.1) s.savePath dsn s.testMode)),
           p + pipes.length)

/-- The grid-mode yield loop over the expanded pipes of one raw variant
(pipegen.py lines 184-197): a null entry inside an expanded pipe makes
`change_load_path` raise `AttributeError` before that configuration is
yielded. -/
def runGridPipes (s : GenState) (dr : Val) (train : Comp) (dsn : String) :
    List (List (Option Comp)) → Nat → Except PyErr (List OutConfig × Nat)
  | [], p => .ok ([], p)
  | gp :: rest, p =>
    match allSome gp with
    | none => .error .attrErr
    | some comps =>
      match runGridPipes s dr train dsn rest (p + 1) with
      | .error e => .error e
      | .ok (cfgs, p2) =>
        .ok (mkOut s dr train (changeLoadPath comps p s.savePath dsn s.testMode) :: cfgs, p2)

/-- The grid-mode body of `PipeGen.pipeline_gen` for one raw variant. -/
def runGridVariant (s : GenState) (v : Variant) (p : Nat) :
    Except PyErr (List OutConfig × Nat) :=
  let pipes := gridConfGen v.pv
  if pipes.isEmpty then .ok ([], p)
  else
    match getDataPath v.dr with
    | .error e => .error e
    | .ok dsn => runGridPipes s v.dr v.train dsn pipes p

/-- Dispatch on `self.mode` for one raw variant (pipegen.py lines 168, 183). -/
def runVariant (s : GenState) (sample : Nat → Comp → Comp) (v : Variant) (p : Nat) :
    Except PyErr (List OutConfig × Nat) :=
  if s.mode == "random" then runRandomVariant s sample v p else runGridVariant s v p

/-- The outer loop of `PipeGen.pipeline_gen` (pipegen.py lines 161-197): the
running pipeline counter `p` starts at 0 and is threaded through all raw
variants without ever being reset mid-stream. -/
def runVariants (s : GenState) (sample : Nat → Comp → Comp) :
    List Variant → Nat → Except PyErr (List OutConfig)
  | [], _ => .ok []
  | v :: rest, p =>
    match runVariant s sample v p with
    | .error e => .error e
    | .ok (cfgs, p2) =>
      match runVariants s sample rest p2 with
      | .error e => .error e
      | .ok more => .ok (cfgs ++ more)

/-- One full run of `PipeGen.pipeline_gen` (the sequence of configurations a
consumer of `PipeGen.__call__`'s iterator obtains), as values at yield
time. -/
def pipelineGen (s : GenState) (sample : Nat → Comp → Comp) : Except PyErr (List OutConfig) :=
  runVariants s sample (pipelineEnumeration s) 0

/-- `PipeGen.get_len` (pipegen.py lines 104-116): the length of one full
(throwaway) run of the generation pipeline. -/
def genLen (s : GenState) (sample : Nat → Comp → Comp) : Except PyErr Nat :=
  (pipelineGen s sample).map List.length

/-
Heap-aware model of the train-config axis construction (pipegen.py lines
134-147), making object identity observable. Addresses index the heap list:
address 0 is `self.train_config`, address 1 is `bs_conf`, the single
`deepcopy` made before the loop. The loop `bs_conf['batch_size'] = bs;
bss.append(bs_conf)` mutates that one object in place and appends a
reference to it, so the returned address list repeats address 1 and the heap
cell at address 1 ends up holding the last `batch_size` value. With a
non-list `batch_size` the source appends `self.train_config` itself
(address 0); the unused copy still exists at address 1.
-/

/-- Result of the `bss` construction with explicit object identity: the list
of object addresses appended to `bss`, and the heap (address-indexed object
contents) after the loop. -/
def buildBssAlloc (train : Comp) : List Nat × List Comp :=
  match dget train "batch_size" with
  | some (.vList bsList) =>
    match bsList.getLast? with
    | some lastBs => (bsList.map (fun _ => 1), [train, dset train "batch_size" lastBs])
    | none => ([], [train, train])
  | some _ => ([0], [train, train])
  | none => ([0], [train])

/-
Heap-aware model of the yield loop of `PipeGen.pipeline_gen` (pipegen.py
lines 161-197), making the sharing of the chainer object observable. Every
`new_config = dict(..., chainer=self.chainer, ...)` stores a reference to
the single template chainer object (modelled as address 0), while
`dataset_reader=deepcopy(dr_config)` allocates a fresh object per yield
(modelled as addresses 1, 2, ...). The assignment
`new_config['chainer']['pipe'] = chainer_components` therefore writes
through the shared reference: after the run, the heap cell at address 0 (and
hence the chainer seen by every yielded configuration and by the stored
template) holds the pipe of the last yielded configuration.
-/

/-- One yielded configuration with the object addresses it stores and the
snapshot of the shared chainer's content at the moment of yield. -/
structure YieldRef where
  chainerAddr : Nat
  drAddr : Nat
  chainerAtYield : Comp

/-- The observable outcome of one full run in the heap-aware model. -/
structure SharedRun where
  yields : List YieldRef
  finalChainer : Comp

/-- Heap-aware run: derived from the value-level run `pipelineGen` (whose
per-yield chainer value is exactly the content of the shared object at that
yield), recording the shared chainer address 0 stored in every config, a
fresh reader address per config, and the final content of the shared
chainer object. -/
def pipelineGenShared (s : GenState) (sample : Nat → Comp → Comp) :
    Except PyErr SharedRun :=
  match pipelineGen s sample with
  | .error e => .error e
  | .ok cfgs =>
    .ok { yields := cfgs.enum.map (fun kc =>
            { chainerAddr := 0, drAddr := 1 + kc.1, chainerAtYield := kc.2.chainer })
        , finalChainer := ((cfgs.getLast?).map (fun c => c.chainer)).getD s.chainer }

/-- Errors raised by `PipeGen.__init__`: `ConfigError` with its message, or
any other Python exception class (`KeyError`, `TypeError`,
`AttributeError`), which is not a configuration error. -/
inductive InitError where
  | configError : String → InitError
  | otherError : String → InitError

/-- Is the outcome a raised `ConfigError`? -/
def isConfigError {α : Type} : Except InitError α → Bool
  | .error (.configError _) => true
  | _ => false

/-- The message of pipegen.py lines 62-63 (two adjacent string literals,
concatenated without a space). -/
def chainerMsg : String :=
  "Main config file not contain 'chainer' component.Structure search can not be started without this component."

/-- The message of pipegen.py line 67. -/
def iteratorMsg : String := "Dataset iterator must be one for hole experiment."

/-- The message of pipegen.py line 76. -/
def modeMsg (mode : String) : String :=
  "'" ++ mode ++ " search' not implemented. Only 'grid' and 'random' search are available."

/-- The message of pipegen.py lines 100-101, with the 1-based stage position
and candidate number interpolated (the source's format string has no space
before "don't"). -/
def componentMsg (i j : Nat) : String :=
  "The pipeline element in config file, on position " ++ toString i ++
    " and with number " ++ toString j ++ "don't contain the 'component_name' key."

/-- The inner loop of `PipeGen._check_component_name` over one stage's
candidates (pipegen.py lines 97-101): `None` entries are skipped, a dict
without `component_name` raises `ConfigError` naming the 1-based stage and
candidate positions, and a non-dict non-null entry raises `AttributeError`
at `example.keys()`. -/
def checkCands (i : Nat) : Nat → List Val → Except InitError Unit
  | _, [] => .ok ()
  | j, cand :: rest =>
    match cand with
    | .vNull => checkCands i (j + 1) rest
    | .vDict c =>
      if hasKey c "component_name" then checkCands i (j + 1) rest
      else .error (.configError (componentMsg (i + 1) (j + 1)))
    | _ => .error (.otherError "AttributeError")

/-- The outer loop of `PipeGen._check_component_name` (pipegen.py lines
96-101); a stage that is not a list fails iteration with a `TypeError`. -/
def checkStages : Nat → List Val → Except InitError Unit
  | _, [] => .ok ()
  | i, stage :: rest =>
    match stage with
    | .vList cands =>
      match checkCands i 0 cands with
      | .ok _ => checkStages (i + 1) rest
      | .error e => .error e
    | _ => .error (.otherError "TypeError")

/-- `PipeGen._check_component_name` applied to `self.structure =
self.chainer['pipe']` (line 71 only stores the value; a non-list pipe fails
at iteration time, inside the check and hence after the mode check). -/
def checkStructure : Val → Except InitError Unit
  | .vList stages => checkStages 0 stages
  | _ => .error (.otherError "TypeError")

/-- Candidate parse after a successful check: `None` becomes `none`, a dict
the component (anything else is unreachable after `checkStructure`). -/
def toCand : Val → Option Comp
  | .vDict c => some c
  | _ => none

/-- Stage parse after a successful check. -/
def toStage : Val → List (Option Comp)
  | .vList cands => cands.map toCand
  | _ => []

/-- Structure parse after a successful check. -/
def toStruct : Val → List (List (Option Comp))
  | .vList stages => stages.map toStage
  | _ => []

/-- The validation part of `PipeGen.__init__` (pipegen.py lines 56-102), in
source order: the `chainer` presence check, `pop("dataset_reader")`
(`KeyError` when missing), the `dataset_iterator` type check (`ConfigError`
for any non-dict value), `pop("train")`, `pop('chainer')` followed by
`self.chainer['pipe']` (`TypeError` on a non-dict chainer, `KeyError` on a
missing `pipe`), the mode check, and `_check_component_name`. Returns the
raw pieces (reader, iterator, train, chainer dict, pipe value). -/
def initCheck (cfg : Comp) (mode : String) :
    Except InitError (Val × Val × Val × Comp × Val) :=
  if !hasKey cfg "chainer" then .error (.configError chainerMsg)
  else
    match dget cfg "dataset_reader" with
    | none => .error (.otherError "KeyError")
    | some dr =>
      match dget cfg "dataset_iterator" with
      | none => .error (.otherError "KeyError")
      | some di =>
        match di with
        | .vDict _ =>
          match dget cfg "train" with
          | none => .error (.otherError "KeyError")
          | some tr =>
            match dget cfg "chainer" with
            | none => .error (.otherError "KeyError")
            | some ch =>
              match ch with
              | .vDict chd =>
                match dget chd "pipe" with
                | none => .error (.otherError "KeyError")
                | some pipeVal =>
                  if mode == "random" || mode == "grid" then
                    match checkStructure pipeVal with
                    | .ok _ => .ok (dr, di, tr, chd, pipeVal)
                    | .error e => .error e
                  else .error (.configError (modeMsg mode))
              | _ => .error (.otherError "TypeError")
        | _ => .error (.configError iteratorMsg)

/-- Renders a generation-time exception as a (non-config) init error. -/
def pyErrName : PyErr → String
  | .keyErr k => "KeyError: " ++ k
  | .attrErr => "AttributeError"
  | .typeErr => "TypeError"

/-- Outcome of the eager `get_len` drain at the end of construction
(pipegen.py line 85): a generation-time exception surfaces at construction
as the corresponding non-config Python exception, otherwise the state
stands. -/
def postLen (s : GenState) (r : Except PyErr Nat) : Except InitError GenState :=
  match r with
  | .error e => .error (.otherError (pyErrName e))
  | .ok _ => .ok s

/-- Full `PipeGen.__init__` (pipegen.py lines 38-87): validation, then the
eager `get_len` run. A non-dict `train` block fails at `get_len`'s first
`self.train_config.keys()` access with an `AttributeError`; any exception
raised while draining the throwaway run surfaces at construction as that
(non-config) exception. Returns the constructed state. -/
def construct (cfg : Comp) (mode : String) (testMode : Bool) (savePath : String)
    (sampleN : Nat) (sample : Nat → Comp → Comp) : Except InitError GenState :=
  match initCheck cfg mode with
  | .error e => .error e
  | .ok (dr, di, tr, chd, pipeVal) =>
    match tr with
    | .vDict trainC =>
      let s : GenState :=
        { datasetReader := dr, datasetIterator := di, trainConfig := trainC
        , chainer := chd, struct := toStruct pipeVal, mode := mode
        , testMode := testMode, savePath := savePath, sampleN := sampleN
        , metadata := dget cfg "metadata" }
      postLen s (genLen s sample)
    | _ => .error (.otherError "AttributeError")

/-- `SQLiteDataIterator.get_doc_content` (sqlite_iterator.py lines 123-141):
the backing store is a single table of rows with an `id` column and a
content column (`text` or `title`, selected at construction); the `SELECT
... WHERE id = ?` / `fetchone()` pair returns the first matching row or
`None`, and the method returns `result if result is None else result[0]`, an
explicit no-content `None` rather than an exception when the id is absent. -/
def getDocContent {α : Type} [DecidableEq α] (db : List (α × String)) (docId : α) :
    Option String :=
  match db.find? (fun r => r.1 = docId) with
  | none => none
  | some r => some r.2

/-
Helper lemmas about the dict and product operations.
-/

theorem dget_cons_self (k : String) (v : Val) (rest : Comp) :
    dget ((k, v) :: rest) k = some v := by
  simp [dget, List.find?]

theorem dget_dset_self (d : Comp) (k : String) (v : Val) :
    dget (dset d k v) k = some v := by
  induction d with
  | nil => simp [dset, dget, List.find?]
  | cons p rest ih =>
    by_cases h : p.1 = k
    · simp [dset, h, dget, List.find?]
    · simp only [dset, if_neg (by simpa using h)]
      simpa [dget, List.find?, h] using ih

theorem dget_cons_eq {p : String × Val} {k : String} (rest : Comp) (h : p.1 = k) :
    dget (p :: rest) k = some p.2 := by
  simp [dget, List.find?, h]

theorem dget_cons_ne {p : String × Val} {k : String} (rest : Comp) (h : p.1 ≠ k) :
    dget (p :: rest) k = dget rest k := by
  have hb : (p.1 == k) = false := by simpa using h
  simp [dget, List.find?, hb]

theorem dget_dset_ne (d : Comp) (k k2 : String) (v : Val) (h : k2 ≠ k) :
    dget (dset d k v) k2 = dget d k2 := by
  induction d with
  | nil =>
    rw [dset, dget_cons_ne [] (fun hh => h hh.symm)]
  | cons p rest ih =>
    rw [dset]
    by_cases hp : p.1 = k
    · rw [if_pos (by simpa using hp)]
      rw [dget_cons_ne rest (fun hh => h hh.symm),
        dget_cons_ne rest (by rw [hp]; exact fun hh => h hh.symm)]
    · rw [if_neg (by simpa using hp)]
      by_cases hp2 : p.1 = k2
      · rw [dget_cons_eq _ hp2, dget_cons_eq rest hp2]
      · rw [dget_cons_ne _ hp2, dget_cons_ne rest hp2]
        exact ih

theorem listProd_length {α : Type} (ls : List (List α)) :
    (listProd ls).length = (ls.map List.length).prod := by
  induction ls with
  | nil => rfl
  | cons xs rest ih =>
    simp only [listProd, List.map_cons, List.prod_cons]
    rw [← ih]
    induction xs with
    | nil => simp
    | cons x xs ihx =>
      simp only [List.flatMap_cons, List.length_append, List.length_map, List.length_cons, ihx]
      ring

theorem mem_listProd {α : Type} {ls : List (List α)} {as : List α} :
    as ∈ listProd ls ↔ List.Forall₂ (fun a xs => a ∈ xs) as ls := by
  induction ls generalizing as with
  | nil =>
    simp only [listProd, List.mem_singleton, List.forall₂_nil_right_iff]
  | cons xs rest ih =>
    simp only [listProd, List.mem_flatMap, List.mem_map]
    constructor
    · rintro ⟨x, hx, t, ht, rfl⟩
      exact List.Forall₂.cons hx (ih.mp ht)
    · intro h
      rcases h with _ | ⟨hx, ht⟩
      exact ⟨_, hx, _, ih.mpr ht, rfl⟩

/-- C9: for every document id absent from the backing store, the
document-content lookup returns the explicit no-content result `none`
instead of failing. -/
theorem c9_get_doc_content_absent {α : Type} [DecidableEq α]
    (db : List (α × String)) (docId : α) (h : ∀ r ∈ db, r.1 ≠ docId) :
    getDocContent db docId = none := by
  unfold getDocContent
  have : db.find? (fun r => r.1 = docId) = none := by
    rw [List.find?_eq_none]
    intro r hr
    simpa using h r hr
  rw [this]

theorem c9_get_doc_content_absent_witness :
    (∀ r ∈ [((1 : Nat), "alpha"), (3, "beta")], r.1 ≠ 2) ∧
      getDocContent [((1 : Nat), "alpha"), (3, "beta")] 2 = none :=
  ⟨by decide, c9_get_doc_content_absent [((1 : Nat), "alpha"), (3, "beta")] 2 (by decide)⟩

/-- C1: evaluation of the train-config axis construction at the failing
input `train = {"batch_size": [16, 32]}`. The heap-aware model shows the two
"variants" are the same object (both entries of the address list are the one
copy at address 1) and that this one object holds `batch_size = 32`, the
last list value, instead of one variant with 16 and one with 32; the
value-level axis accordingly consists of two equal train blocks with
`batch_size = 32`. This falsifies independence of the variants and the
one-value-per-variant property claimed. -/
theorem c1_bss_alias_eval :
    (buildBssAlloc [("batch_size", Val.vList [Val.vInt 16, Val.vInt 32])]).1 = [1, 1] ∧
    dget ((buildBssAlloc [("batch_size", Val.vList [Val.vInt 16, Val.vInt 32])]).2.getD 1 [])
        "batch_size" = some (Val.vInt 32) ∧
    buildBss [("batch_size", Val.vList [Val.vInt 16, Val.vInt 32])] =
      [[("batch_size", Val.vInt 32)], [("batch_size", Val.vInt 32)]] :=
  ⟨rfl, rfl, rfl⟩

theorem applyAssign_getElem (pv : List (Option Comp)) (i j : Nat) (key : String) (v : Val) :
    (applyAssign pv i key v)[j]? =
      (pv[j]?).map (fun cand => if j = i then cand.map (fun c => dset c key v) else cand) := by
  induction pv generalizing i j with
  | nil => simp [applyAssign]
  | cons cand rest ih =>
    cases i with
    | zero =>
      cases j with
      | zero => simp [applyAssign]
      | succ j2 =>
        simp only [applyAssign, List.getElem?_cons_succ]
        cases rest[j2]? <;> simp
    | succ i2 =>
      cases j with
      | zero =>
        simp only [applyAssign, List.getElem?_cons_zero]
        simp
      | succ j2 =>
        simp only [applyAssign, List.getElem?_cons_succ, ih]
        cases rest[j2]? <;> simp

theorem applyAssign_length (pv : List (Option Comp)) (i : Nat) (key : String) (v : Val) :
    (applyAssign pv i key v).length = pv.length := by
  induction pv generalizing i with
  | nil => rfl
  | cons cand rest ih =>
    cases i with
    | zero => rfl
    | succ j => simp [applyAssign, ih]

theorem applyAssigns_length (pv : List (Option Comp)) (asn : List (Val × Nat × String)) :
    (applyAssigns pv asn).length = pv.length := by
  induction asn generalizing pv with
  | nil => rfl
  | cons a asn ih =>
    show (applyAssigns (applyAssign pv a.2.1 a.2.2 a.1) asn).length = pv.length
    rw [ih, applyAssign_length]

theorem applyAssigns_getElem_none (pv : List (Option Comp)) (asn : List (Val × Nat × String))
    (i : Nat) (h : pv[i]? = some none) : (applyAssigns pv asn)[i]? = some none := by
  induction asn generalizing pv with
  | nil => exact h
  | cons a asn ih =>
    show (applyAssigns (applyAssign pv a.2.1 a.2.2 a.1) asn)[i]? = some none
    apply ih
    rw [applyAssign_getElem, h]
    cases hc : decide (i = a.2.1) <;> simp_all

theorem randomAxes_length (sample : Nat → Comp → Comp) (n : Nat) (pv : List (Option Comp))
    (k : Nat) : (randomAxes sample n pv k).length = pv.countP truthy := by
  induction pv generalizing k with
  | nil => rfl
  | cons cand rest ih =>
    cases cand with
    | none => simpa [randomAxes, truthy, List.countP_cons] using ih k
    | some c =>
      by_cases he : c.isEmpty
      · simpa [randomAxes, he, truthy, List.countP_cons] using ih k
      · by_cases hs : isSearchable c
        · simpa [randomAxes, he, hs, truthy, List.countP_cons] using ih (k + n)
        · simpa [randomAxes, he, hs, truthy, List.countP_cons] using ih k

theorem randomAxes_mem_nonempty (sample : Nat → Comp → Comp) (n : Nat)
    (hs : ∀ k c, sample k c ≠ []) (pv : List (Option Comp)) (k : Nat) :
    ∀ axis ∈ randomAxes sample n pv k, ∀ c ∈ axis, c ≠ [] := by
  induction pv generalizing k with
  | nil => simp [randomAxes]
  | cons cand rest ih =>
    cases cand with
    | none => exact fun axis ha => ih k axis ha
    | some c =>
      by_cases he : c.isEmpty
      · simpa [randomAxes, he] using fun axis ha => ih k axis ha
      · by_cases hsr : isSearchable c
        · intro axis ha
          simp only [randomAxes, if_neg he, if_pos hsr, List.mem_cons] at ha
          rcases ha with rfl | ha
          · intro x hx
            simp only [sampleRun, List.mem_map] at hx
            rcases hx with ⟨i, _, rfl⟩
            exact hs _ _
          · exact ih (k + n) axis ha
        · intro axis ha
          simp only [randomAxes, if_neg he, if_neg hsr, List.mem_cons] at ha
          rcases ha with rfl | ha
          · intro x hx
            simp only [List.mem_singleton] at hx
            subst hx
            simpa [List.isEmpty_iff] using he
          · exact ih k axis ha

theorem forall₂_mem_left {α β : Type} {R : α → β → Prop} {as : List α} {bs : List β}
    (h : List.Forall₂ R as bs) : ∀ a ∈ as, ∃ b ∈ bs, R a b := by
  induction h with
  | nil => simp
  | cons hR hrest ih =>
    intro a ha
    rcases List.mem_cons.mp ha with rfl | ha
    · exact ⟨_, List.mem_cons_self _ _, hR⟩
    · rcases ih a ha with ⟨b, hb, hRb⟩
      exact ⟨b, List.mem_cons_of_mem _ hb, hRb⟩

/-- C10: every candidate list yielded by the grid expansion has the length of
its input with every null entry preserved in place (grid mode does not drop
null candidates), while the random expansion yields one entry per truthy
candidate (falsy candidates are skipped) and, provided the external sampler
returns non-empty (truthy) components, every component of a random-mode
tuple is truthy. -/
theorem c10_grid_nulls_random_truthy :
    (∀ (pv : List (Option Comp)) (out : List (Option Comp)), out ∈ gridConfGen pv →
      out.length = pv.length ∧ ∀ i : Nat, pv[i]? = some none → out[i]? = some none) ∧
    (∀ (sample : Nat → Comp → Comp) (n : Nat) (pv : List (Option Comp)) (out : List Comp),
      out ∈ randomConfGen sample n pv →
      out.length = pv.countP truthy ∧
      ((∀ k c, sample k c ≠ []) → ∀ c ∈ out, c ≠ [])) := by
  constructor
  · intro pv out hout
    simp only [gridConfGen, List.mem_map] at hout
    rcases hout with ⟨asn, _, rfl⟩
    exact ⟨applyAssigns_length pv asn, fun i h => applyAssigns_getElem_none pv asn i h⟩
  · intro sample n pv out hout
    have hf := mem_listProd.mp hout
    constructor
    · rw [hf.length_eq, randomAxes_length]
    · intro hs c hc
      rcases forall₂_mem_left hf c hc with ⟨axis, haxis, hcaxis⟩
      exact randomAxes_mem_nonempty sample n hs pv 0 axis haxis c hcaxis

/-- Concrete stage-candidate list for the C10 witness: one component with a
`grid_search` parameter, followed by a null slot. -/
def c10pv : List (Option Comp) :=
  [some [("component_name", Val.vStr "a"),
         ("lr", Val.vDict [("grid_search", Val.vList [Val.vInt 1, Val.vInt 2])])], none]

/-- First combination yielded by `gridConfGen c10pv`. -/
def c10out : List (Option Comp) :=
  [some [("component_name", Val.vStr "a"), ("lr", Val.vInt 1)], none]

/-- A concrete sampler that prepends a marker entry (hence never returns an
empty dict). -/
def c10sample : Nat → Comp → Comp := fun _ c => ("sampled", Val.vNull) :: c

/-- Concrete searchable component for the C10 witness. -/
def c10rc : Comp :=
  [("component_name", Val.vStr "b"), ("lr", Val.vDict [("random_range", Val.vList [])])]

/-- Concrete stage-candidate list with one searchable component and a null
slot. -/
def c10rpv : List (Option Comp) := [some c10rc, none]

/-- First tuple yielded by `randomConfGen c10sample 2 c10rpv`. -/
def c10rout : List Comp := [("sampled", Val.vNull) :: c10rc]

theorem c10_grid_nulls_random_truthy_witness :
    (c10out ∈ gridConfGen c10pv ∧ c10out.length = c10pv.length ∧
      c10pv[1]? = some none ∧ c10out[1]? = some none) ∧
    (c10rout ∈ randomConfGen c10sample 2 c10rpv ∧
      c10rout.length = c10rpv.countP truthy ∧ ∀ c ∈ c10rout, c ≠ []) := by
  have hgeq : gridConfGen c10pv =
      [c10out, [some [("component_name", Val.vStr "a"), ("lr", Val.vInt 2)], none]] := rfl
  have hg : c10out ∈ gridConfGen c10pv := by
    rw [hgeq]; exact List.mem_cons_self _ _
  have hreq : randomConfGen c10sample 2 c10rpv = [c10rout, c10rout] := rfl
  have hr : c10rout ∈ randomConfGen c10sample 2 c10rpv := by
    rw [hreq]; exact List.mem_cons_self _ _
  have h1 := c10_grid_nulls_random_truthy.1 c10pv c10out hg
  have h2 := c10_grid_nulls_random_truthy.2 c10sample 2 c10rpv c10rout hr
  exact ⟨⟨hg, h1.1, rfl, h1.2 1 rfl⟩,
         ⟨hr, h2.1, h2.2 (fun k c => List.cons_ne_nil _ _)⟩⟩

/-- The value at stage `i`, parameter `key` of a candidate list (`None` at a
missing index, null candidate or absent key). -/
def lookup2 (pv : List (Option Comp)) (i : Nat) (key : String) : Option Val :=
  pv[i]?.bind (fun cand => cand.bind (fun c => dget c key))

theorem forall₂_mem_right {α β : Type} {R : α → β → Prop} {as : List α} {bs : List β}
    (h : List.Forall₂ R as bs) : ∀ b ∈ bs, ∃ a ∈ as, R a b := by
  induction h with
  | nil => simp
  | cons hR hrest ih =>
    intro b hb
    rcases List.mem_cons.mp hb with rfl | hb
    · exact ⟨_, List.mem_cons_self _ _, hR⟩
    · rcases ih b hb with ⟨a, ha, hRa⟩
      exact ⟨a, List.mem_cons_of_mem _ ha, hRa⟩

theorem gridAxisOfEntry_spec {i : Nat} {key : String} {v : Val}
    {axis : List (Val × Nat × String)} (h : gridAxisOfEntry i key v = some axis) :
    ∃ vs : List Val, axis = vs.map (fun w => (w, i, key)) := by
  cases v with
  | vDict entries =>
    simp only [gridAxisOfEntry] at h
    cases hg : dget entries "grid_search" with
    | none => rw [hg] at h; exact absurd h (by simp)
    | some gv =>
      rw [hg] at h
      cases gv with
      | vList vs => exact ⟨vs, (Option.some.injEq _ _ ▸ h).symm⟩
      | vNull => exact absurd h (by simp)
      | vBool b => exact absurd h (by simp)
      | vInt m => exact absurd h (by simp)
      | vStr s => exact absurd h (by simp)
      | vDict d2 => exact absurd h (by simp)
  | vNull => exact absurd h (by simp [gridAxisOfEntry])
  | vBool b => exact absurd h (by simp [gridAxisOfEntry])
  | vInt m => exact absurd h (by simp [gridAxisOfEntry])
  | vStr s => exact absurd h (by simp [gridAxisOfEntry])
  | vList l => exact absurd h (by simp [gridAxisOfEntry])

theorem gridAxes_mem_spec (pv : List (Option Comp)) :
    ∀ axis ∈ gridAxes pv,
      ∃ (i : Nat) (key : String) (c : Comp) (vs : List Val),
        pv[i]? = some (some c) ∧ axis = vs.map (fun v => (v, i, key)) := by
  intro axis ha
  simp only [gridAxes, List.mem_flatMap] at ha
  rcases ha with ⟨⟨i0, cand⟩, hic, ha⟩
  have hidx : pv[i0]? = some cand := List.mk_mem_enum_iff_getElem?.mp hic
  cases cand with
  | none => simp at ha
  | some c =>
    simp only at ha
    rcases List.mem_filterMap.mp ha with ⟨p, _, hp⟩
    rcases gridAxisOfEntry_spec hp with ⟨vs, hvs⟩
    exact ⟨i0, p.1, c, vs, hidx, hvs⟩

theorem applyAssign_some_at (pv : List (Option Comp)) (i2 : Nat) (key2 : String) (v : Val)
    (i : Nat) (c : Comp) (h : pv[i]? = some (some c)) :
    ∃ c2, (applyAssign pv i2 key2 v)[i]? = some (some c2) := by
  rw [applyAssign_getElem, h]
  by_cases hi : i = i2
  · exact ⟨dset c key2 v, by simp [hi]⟩
  · exact ⟨c, by simp [hi]⟩

theorem applyAssign_lookup_ne (pv : List (Option Comp)) (a : Val × Nat × String)
    (i : Nat) (key : String) (h : a.2 ≠ (i, key)) :
    lookup2 (applyAssign pv a.2.1 a.2.2 a.1) i key = lookup2 pv i key := by
  unfold lookup2
  rw [applyAssign_getElem]
  cases hc : pv[i]? with
  | none => simp
  | some cand =>
    by_cases hi : i = a.2.1
    · have hk : key ≠ a.2.2 := by
        intro hk
        exact h (by rw [hi, hk])
      simp only [if_pos hi, Option.map_some, Option.bind_some]
      cases cand with
      | none => simp
      | some c => simp [dget_dset_ne c a.2.2 key a.1 hk]
    · simp [hi]

theorem applyAssigns_lookup_ne (pv : List (Option Comp)) (asn : List (Val × Nat × String))
    (i : Nat) (key : String) (h : ∀ a ∈ asn, a.2 ≠ (i, key)) :
    lookup2 (applyAssigns pv asn) i key = lookup2 pv i key := by
  induction asn generalizing pv with
  | nil => rfl
  | cons a asn ih =>
    show lookup2 (applyAssigns (applyAssign pv a.2.1 a.2.2 a.1) asn) i key = _
    rw [ih _ (fun b hb => h b (List.mem_cons_of_mem _ hb)),
      applyAssign_lookup_ne pv a i key (h a (List.mem_cons_self _ _))]

theorem applyAssign_lookup_self (pv : List (Option Comp)) (i : Nat) (key : String) (v : Val)
    (c : Comp) (h : pv[i]? = some (some c)) :
    lookup2 (applyAssign pv i key v) i key = some v := by
  unfold lookup2
  rw [applyAssign_getElem, h]
  simp [dget_dset_self]

theorem applyAssigns_lookup_flagged (pv : List (Option Comp))
    (asn : List (Val × Nat × String)) (i : Nat) (key : String)
    (hsome : ∃ a ∈ asn, a.2 = (i, key)) (c : Comp) (hcell : pv[i]? = some (some c)) :
    ∃ a, a ∈ asn ∧ a.2 = (i, key) ∧ lookup2 (applyAssigns pv asn) i key = some a.1 := by
  induction asn generalizing pv c with
  | nil =>
    rcases hsome with ⟨a, ha, _⟩
    simp at ha
  | cons a asn ih =>
    by_cases h2 : ∃ b ∈ asn, b.2 = (i, key)
    · rcases applyAssign_some_at pv a.2.1 a.2.2 a.1 i c hcell with ⟨c2, hc2⟩
      rcases ih _ h2 _ hc2 with ⟨b, hb, hbt, hlook⟩
      exact ⟨b, List.mem_cons_of_mem _ hb, hbt, hlook⟩
    · push_neg at h2
      have hat : a.2 = (i, key) := by
        rcases hsome with ⟨b, hb, hbt⟩
        rcases List.mem_cons.mp hb with rfl | hb
        · exact hbt
        · exact absurd hbt (h2 b hb)
      refine ⟨a, List.mem_cons_self _ _, hat, ?_⟩
      show lookup2 (applyAssigns (applyAssign pv a.2.1 a.2.2 a.1) asn) i key = some a.1
      rw [applyAssigns_lookup_ne _ asn i key h2]
      have h1 : a.2.1 = i := by rw [hat]
      have hk : a.2.2 = key := by rw [hat]
      rw [h1, hk]
      exact applyAssign_lookup_self pv i key a.1 c hcell

/-- C4: in grid mode one raw variant's expansion yields exactly the product
of the sizes of its grid axes (the `grid_search` value lists); with no axes
it yields exactly the one unmodified candidate list; every non-flagged (stage,
key) location is unchanged in every yielded list; and every flagged location
holds one value taken from its own grid axis. -/
theorem c4_grid_combinations :
    (∀ pv : List (Option Comp),
      (gridConfGen pv).length = ((gridAxes pv).map List.length).prod) ∧
    (∀ pv : List (Option Comp), gridAxes pv = [] → gridConfGen pv = [pv]) ∧
    (∀ (pv out : List (Option Comp)), out ∈ gridConfGen pv → ∀ (i : Nat) (key : String),
      (∀ axis ∈ gridAxes pv, ∀ a ∈ axis, a.2 ≠ (i, key)) →
      lookup2 out i key = lookup2 pv i key) ∧
    (∀ (pv out : List (Option Comp)), out ∈ gridConfGen pv → ∀ (i : Nat) (key : String),
      (∃ axis ∈ gridAxes pv, ∃ a ∈ axis, a.2 = (i, key)) →
      ∃ axis ∈ gridAxes pv, (∀ a ∈ axis, a.2 = (i, key)) ∧
        ∃ v : Val, (v, i, key) ∈ axis ∧ lookup2 out i key = some v) := by
  refine ⟨?_, ?_, ?_, ?_⟩
  · intro pv
    unfold gridConfGen
    rw [List.length_map, listProd_length]
  · intro pv h
    unfold gridConfGen
    rw [h]
    rfl
  · intro pv out hout i key h
    simp only [gridConfGen, List.mem_map] at hout
    rcases hout with ⟨asn, hasn, rfl⟩
    apply applyAssigns_lookup_ne
    intro a ha
    have hf := mem_listProd.mp hasn
    rcases forall₂_mem_left hf a ha with ⟨axis, haxis, hmem⟩
    exact h axis haxis a hmem
  · intro pv out hout i key hex
    simp only [gridConfGen, List.mem_map] at hout
    rcases hout with ⟨asn, hasn, rfl⟩
    rcases hex with ⟨axis, haxis, a0, ha0, ht0⟩
    have hf := mem_listProd.mp hasn
    rcases gridAxes_mem_spec pv axis haxis with ⟨i2, key2, c, vs, hcell, hvs⟩
    subst hvs
    rcases List.mem_map.mp ha0 with ⟨w0, _, hw0⟩
    rw [← hw0] at ht0
    simp only at ht0
    injection ht0 with h2i h2k
    rw [h2i] at hcell
    rw [h2i, h2k] at haxis
    have huni : ∀ a ∈ vs.map (fun v => (v, i, key)), a.2 = (i, key) := by
      intro a ha
      rcases List.mem_map.mp ha with ⟨w, _, rfl⟩
      rfl
    rcases forall₂_mem_right hf _ haxis with ⟨b, hb, hbmem⟩
    have hbt : b.2 = (i, key) := huni b hbmem
    rcases applyAssigns_lookup_flagged pv asn i key ⟨b, hb, hbt⟩ c hcell
      with ⟨a, ha, hat, hlook⟩
    rcases forall₂_mem_left hf a ha with ⟨axis2, haxis2, hamem⟩
    rcases gridAxes_mem_spec pv axis2 haxis2 with ⟨i3, key3, c3, vs3, _, hvs3⟩
    subst hvs3
    have hat2 := hat
    rcases List.mem_map.mp hamem with ⟨w, hwmem, hw⟩
    rw [← hw] at hat2
    simp only at hat2
    injection hat2 with h3i h3k
    rw [h3i, h3k] at haxis2 hamem
    refine ⟨vs3.map (fun v => (v, i, key)), haxis2, ?_, a.1, ?_, hlook⟩
    · intro x hx
      rcases List.mem_map.mp hx with ⟨w2, _, rfl⟩
      rfl
    · have haeq : a = (a.1, i, key) := by
        rw [Prod.ext_iff]
        exact ⟨rfl, hat⟩
      rw [← haeq]
      exact hamem

/-- Concrete candidate list for the C4 witness: one component with two grid
axes of sizes 2 and 3. -/
def c4pv : List (Option Comp) :=
  [some [("component_name", Val.vStr "m"),
         ("lr", Val.vDict [("grid_search", Val.vList [Val.vInt 1, Val.vInt 2])]),
         ("units", Val.vDict [("grid_search", Val.vList [Val.vInt 10, Val.vInt 20, Val.vInt 30])])]]

/-- First combination yielded by `gridConfGen c4pv`. -/
def c4out : List (Option Comp) :=
  [some [("component_name", Val.vStr "m"), ("lr", Val.vInt 1), ("units", Val.vInt 10)]]

/-- Candidate list without any grid axis. -/
def c4plain : List (Option Comp) := [some [("component_name", Val.vStr "p")]]

theorem c4_grid_combinations_witness :
    (gridConfGen c4pv).length = ((gridAxes c4pv).map List.length).prod ∧
    gridAxes c4plain = [] ∧ gridConfGen c4plain = [c4plain] ∧
    (c4out ∈ gridConfGen c4pv ∧
      lookup2 c4out 0 "component_name" = lookup2 c4pv 0 "component_name" ∧
      ∃ axis ∈ gridAxes c4pv, (∀ a ∈ axis, a.2 = (0, "lr")) ∧
        ∃ v : Val, (v, 0, "lr") ∈ axis ∧ lookup2 c4out 0 "lr" = some v) := by
  have hmem : c4out ∈ gridConfGen c4pv := by
    rw [show gridConfGen c4pv = c4out :: (gridConfGen c4pv).tail from rfl]
    exact List.mem_cons_self _ _
  exact ⟨c4_grid_combinations.1 c4pv, rfl, c4_grid_combinations.2.1 c4plain rfl, hmem,
    c4_grid_combinations.2.2.1 c4pv c4out hmem 0 "component_name" (by decide),
    c4_grid_combinations.2.2.2 c4pv c4out hmem 0 "lr" (by decide)⟩

/-- Truthiness together with searchability of a stage candidate: the
candidates that contribute an `N`-sized axis in random mode. -/
def searchCand : Option Comp → Bool
  | some c => !c.isEmpty && isSearchable c
  | none => false

theorem randomAxes_prod (sample : Nat → Comp → Comp) (n : Nat) (pv : List (Option Comp))
    (k : Nat) :
    ((randomAxes sample n pv k).map List.length).prod = n ^ (pv.countP searchCand) := by
  induction pv generalizing k with
  | nil => rfl
  | cons cand rest ih =>
    cases cand with
    | none => simpa [randomAxes, searchCand, List.countP_cons] using ih k
    | some c =>
      by_cases he : c.isEmpty
      · simpa [randomAxes, he, searchCand, List.countP_cons] using ih k
      · by_cases hs : isSearchable c
        · simp only [randomAxes, if_neg he, if_pos hs, List.map_cons, List.prod_cons, ih (k + n),
            sampleRun, List.length_map, List.length_range]
          rw [List.countP_cons_of_pos _ _ (by simp [searchCand, he, hs])]
          rw [pow_succ, Nat.mul_comm]
        · simp only [randomAxes, if_neg he, if_neg hs, List.map_cons, List.prod_cons, ih k,
            List.length_singleton]
          rw [List.countP_cons_of_neg _ _ (by simp [searchCand, he, hs])]
          ring

/-- C7: in random mode a raw variant with exactly one searchable (truthy)
stage candidate expands to exactly `N` configurations, independently of the
sampler; and generation is deterministic: two runs of the generation
pipeline built from equal states with the (seed-determined) sampler produce
equal configuration sequences. -/
theorem c7_random_count_determinism :
    (∀ (sample : Nat → Comp → Comp) (n : Nat) (pv : List (Option Comp)),
      pv.countP searchCand = 1 → (randomConfGen sample n pv).length = n) ∧
    (∀ (s t : GenState) (sample : Nat → Comp → Comp), s = t →
      pipelineGen s sample = pipelineGen t sample) := by
  constructor
  · intro sample n pv h
    unfold randomConfGen
    rw [listProd_length, randomAxes_prod, h, pow_one]
  · intro s t sample h
    rw [h]

/-- Concrete candidate list with exactly one searchable component, one plain
component and a null slot, for the C7 witness. -/
def c7pv : List (Option Comp) :=
  [some [("component_name", Val.vStr "s"),
         ("lr", Val.vDict [("random_bool", Val.vBool true)])],
   some [("component_name", Val.vStr "t")], none]

/-- A trivial concrete sampler. -/
def sampleId : Nat → Comp → Comp := fun _ c => c

/-- Concrete generator state for the C7 witness. -/
def c7state : GenState :=
  { datasetReader := Val.vDict [("data_path", Val.vStr "data/ds")]
  , datasetIterator := Val.vDict []
  , trainConfig := [("batch_size", Val.vInt 16)]
  , chainer := [("in", Val.vStr "x"), ("pipe", Val.vNull)]
  , struct := [c7pv]
  , mode := "random"
  , testMode := false
  , savePath := "root"
  , sampleN := 2
  , metadata := none }

theorem c7_random_count_determinism_witness :
    c7pv.countP searchCand = 1 ∧
    (randomConfGen sampleId 5 c7pv).length = 5 ∧
    pipelineGen c7state sampleId = pipelineGen c7state sampleId :=
  ⟨by decide,
   c7_random_count_determinism.1 sampleId 5 c7pv (by decide),
   c7_random_count_determinism.2 c7state c7state sampleId rfl⟩

theorem randomConfGen_length (sample : Nat → Comp → Comp) (n : Nat)
    (pv : List (Option Comp)) :
    (randomConfGen sample n pv).length = n ^ (pv.countP searchCand) := by
  unfold randomConfGen
  rw [listProd_length, randomAxes_prod]

theorem runRandomVariant_ok (s : GenState) (sample : Nat → Comp → Comp) (v : Variant)
    (p : Nat) (hdr : ∃ dsn, getDataPath v.dr = .ok dsn) :
    ∃ cfgs, runRandomVariant s sample v p = .ok (cfgs, p + cfgs.length) ∧
      cfgs.length = s.sampleN ^ (v.pv.countP searchCand) := by
  unfold runRandomVariant
  by_cases he : (randomConfGen sample s.sampleN v.pv).isEmpty
  · refine ⟨[], ?_, ?_⟩
    · rw [if_pos he]
      simp
    · rw [List.length_nil, ← randomConfGen_length sample s.sampleN v.pv]
      rw [List.isEmpty_iff] at he
      rw [he]
      rfl
  · rcases hdr with ⟨dsn, hdsn⟩
    refine ⟨(randomConfGen sample s.sampleN v.pv).enum.map
      (fun kp => mkOut s v.dr v.train (changeLoadPath kp.2 (p + kp.1) s.savePath dsn s.testMode)),
      ?_, ?_⟩
    · rw [if_neg he, hdsn]
      show Except.ok _ = Except.ok _
      rw [List.length_map, List.enum_length]
    · rw [List.length_map, List.enum_length, randomConfGen_length]

theorem length_flatMap_const {α β : Type} (xs : List α) (f : α → List β) (k : Nat)
    (h : ∀ x ∈ xs, (f x).length = k) : (xs.flatMap f).length = xs.length * k := by
  induction xs with
  | nil => simp
  | cons x xs ih =>
    rw [List.flatMap_cons, List.length_append, ih (fun y hy => h y (List.mem_cons_of_mem _ hy)),
      h x (List.mem_cons_self _ _), List.length_cons]
    ring

theorem pipelineEnumeration_length (s : GenState) :
    (pipelineEnumeration s).length =
      (buildDrs s.datasetReader).length *
        ((buildBss s.trainConfig).length * (s.struct.map List.length).prod) := by
  unfold pipelineEnumeration
  rw [length_flatMap_const _ _ ((buildBss s.trainConfig).length * (listProd s.struct).length)]
  · rw [listProd_length]
  · intro dr _
    rw [length_flatMap_const _ _ (listProd s.struct).length]
    intro bs _
    rw [List.length_map]

theorem pipelineEnumeration_mem (s : GenState) (v : Variant)
    (h : v ∈ pipelineEnumeration s) :
    v.dr ∈ buildDrs s.datasetReader ∧ v.pv ∈ listProd s.struct := by
  unfold pipelineEnumeration at h
  simp only [List.mem_flatMap, List.mem_map] at h
  rcases h with ⟨dr, hdr, bs, _, pv, hpv, heq⟩
  rw [← heq]
  exact ⟨hdr, hpv⟩

theorem runVariants_random_ok (s : GenState) (sample : Nat → Comp → Comp)
    (hm : s.mode = "random") (vs : List Variant)
    (hdr : ∀ v ∈ vs, ∃ dsn, getDataPath v.dr = .ok dsn) (p : Nat) :
    ∃ cfgs, runVariants s sample vs p = .ok cfgs ∧
      cfgs.length = (vs.map (fun v => s.sampleN ^ (v.pv.countP searchCand))).sum := by
  induction vs generalizing p with
  | nil => exact ⟨[], rfl, rfl⟩
  | cons v vs ih =>
    rcases runRandomVariant_ok s sample v p (hdr v (List.mem_cons_self _ _)) with
      ⟨cfgs1, h1, hl1⟩
    rcases ih (fun w hw => hdr w (List.mem_cons_of_mem _ hw)) (p + cfgs1.length) with
      ⟨cfgs2, h2, hl2⟩
    refine ⟨cfgs1 ++ cfgs2, ?_, ?_⟩
    · have hmode : (s.mode == "random") = true := by rw [hm]; rfl
      simp only [runVariants, runVariant, hmode, if_true, h1, h2]
    · rw [List.length_append, hl1, hl2, List.map_cons, List.sum_cons]

/-- Does a stage candidate carry a random-search directive (a null candidate
carries none)? -/
def candSearchable : Option Comp → Bool
  | some c => isSearchable c
  | none => false

theorem sum_map_ones {α : Type} (vs : List α) (f : α → Nat) (h : ∀ v ∈ vs, f v = 1) :
    (vs.map f).sum = vs.length := by
  induction vs with
  | nil => rfl
  | cons v vs ih =>
    rw [List.map_cons, List.sum_cons, h v (List.mem_cons_self _ _),
      ih (fun w hw => h w (List.mem_cons_of_mem _ hw)), List.length_cons]
    omega

/-- C3 (amended): in random mode, for a template whose stages contain no
search directives and whose dataset-reader variants expose a `data_path`,
the generator's length equals R × T × (product over stages of the total
candidate count, null entries included): each null candidate still yields a
variant (with that stage omitted), so the per-stage factor is the full
candidate-list length, not the non-null count. -/
theorem c3_generator_length (s : GenState) (sample : Nat → Comp → Comp)
    (hm : s.mode = "random")
    (hns : ∀ stage ∈ s.struct, ∀ cand ∈ stage, candSearchable cand = false)
    (hdr : ∀ dr ∈ buildDrs s.datasetReader, ∃ dsn, getDataPath dr = .ok dsn) :
    genLen s sample = .ok ((buildDrs s.datasetReader).length *
      ((buildBss s.trainConfig).length * (s.struct.map List.length).prod)) := by
  have hvs : ∀ v ∈ pipelineEnumeration s, ∃ dsn, getDataPath v.dr = .ok dsn := by
    intro v hv
    exact hdr v.dr (pipelineEnumeration_mem s v hv).1
  rcases runVariants_random_ok s sample hm (pipelineEnumeration s) hvs 0 with
    ⟨cfgs, hrun, hlen⟩
  unfold genLen pipelineGen
  rw [hrun]
  have hone : ∀ v ∈ pipelineEnumeration s, s.sampleN ^ (v.pv.countP searchCand) = 1 := by
    intro v hv
    have hpv := (pipelineEnumeration_mem s v hv).2
    have hzero : v.pv.countP searchCand = 0 := by
      rw [List.countP_eq_zero]
      intro cand hcand
      rcases forall₂_mem_left (mem_listProd.mp hpv) cand hcand with ⟨stage, hstage, hmem⟩
      have := hns stage hstage cand hmem
      cases cand with
      | none => simp [searchCand]
      | some c =>
        simp only [candSearchable] at this
        simp [searchCand, this]
    rw [hzero, pow_zero]
  rw [Except.map, hlen, sum_map_ones _ _ hone, pipelineEnumeration_length]

/-- Main-flagged component used in concrete generator states. -/
def c3A : Comp :=
  [("component_name", Val.vStr "a"), ("main", Val.vBool true),
   ("save_path", Val.vStr "m/model.bin")]

/-- Concrete generator state whose single stage holds one non-null and one
null candidate: the code's length is 2 (the null candidate yields its own
variant), while the claimed formula R × T × (non-null count) gives
1 × 1 × 1 = 1. -/
def c3state : GenState :=
  { datasetReader := Val.vDict [("data_path", Val.vStr "data/ds")]
  , datasetIterator := Val.vDict []
  , trainConfig := []
  , chainer := [("pipe", Val.vNull)]
  , struct := [[some c3A, none]]
  , mode := "random"
  , testMode := false
  , savePath := "root"
  , sampleN := 10
  , metadata := none }

/-- C3 counterexample: with R = 1 reader, T = 1 train config and one stage
whose candidates are one component and one null, the generator length is 2,
not the claimed 1 × 1 × (non-null candidate count 1) = 1. -/
theorem c3_counterexample :
    genLen c3state sampleId = .ok 2 ∧
    (buildDrs c3state.datasetReader).length = 1 ∧
    (buildBss c3state.trainConfig).length = 1 ∧
    (c3state.struct.map (fun st => st.countP (fun cand => cand.isSome))).prod = 1 ∧
    genLen c3state sampleId ≠ .ok 1 := by
  refine ⟨rfl, rfl, rfl, rfl, ?_⟩
  intro h
  have h2 := (show genLen c3state sampleId = Except.ok 2 from rfl).symm.trans h
  simp at h2

theorem c3_generator_length_witness :
    c3state.mode = "random" ∧
    (∀ stage ∈ c3state.struct, ∀ cand ∈ stage, candSearchable cand = false) ∧
    genLen c3state sampleId = .ok ((buildDrs c3state.datasetReader).length *
      ((buildBss c3state.trainConfig).length * (c3state.struct.map List.length).prod)) :=
  ⟨rfl, by decide,
   c3_generator_length c3state sampleId rfl (by decide)
     (fun dr hdr => by
       rw [show buildDrs c3state.datasetReader = [c3state.datasetReader] from rfl] at hdr
       rcases List.mem_singleton.mp hdr with rfl
       exact ⟨"ds", rfl⟩)⟩

theorem str_data_ne_nil {s : String} (h : s ≠ "") : s.data ≠ [] :=
  fun hd => h (String.ext hd)

theorem str_append_ne_right (a b : String) (hb : b ≠ "") : a ++ b ≠ "" := by
  intro h
  have hd := congrArg String.data h
  rw [String.data_append] at hd
  rcases List.append_eq_nil.mp hd with ⟨_, h2⟩
  exact hb (String.ext h2)

theorem endsSlash_append (a b : String) (hb : b ≠ "") :
    endsSlash (a ++ b) = endsSlash b := by
  unfold endsSlash
  rw [String.data_append, List.getLast?_append_of_ne_nil _ (str_data_ne_nil hb)]

theorem digitChar_ne_slash (n : Nat) : Nat.digitChar n ≠ '/' := by
  rcases Nat.lt_or_ge n 16 with h | h
  · interval_cases n <;> decide
  · unfold Nat.digitChar
    repeat rw [if_neg (by omega)]
    decide

theorem toDigitsCore_ne_slash (b f n : Nat) (acc : List Char)
    (hacc : ∀ c ∈ acc, c ≠ '/') : ∀ c ∈ Nat.toDigitsCore b f n acc, c ≠ '/' := by
  induction f generalizing n acc with
  | zero => simpa [Nat.toDigitsCore] using hacc
  | succ f ih =>
    intro c hc
    rw [Nat.toDigitsCore] at hc
    split at hc
    · rcases List.mem_cons.mp hc with rfl | hc
      · exact digitChar_ne_slash _
      · exact hacc c hc
    · refine ih (n / b) (Nat.digitChar (n % b) :: acc) ?_ c hc
      intro x hx
      rcases List.mem_cons.mp hx with rfl | hx
      · exact digitChar_ne_slash _
      · exact hacc x hx

theorem repr_ne_slash (n : Nat) : ∀ c ∈ (Nat.repr n).data, c ≠ '/' := by
  intro c hc
  exact toDigitsCore_ne_slash 10 (n + 1) n [] (by simp) c hc

theorem pipeDir_data (n : Nat) :
    (pipeDir n).data = "pipe_".data ++ (Nat.repr (n + 1)).data := by
  unfold pipeDir
  rw [show toString (n + 1) = Nat.repr (n + 1) from rfl, String.data_append]

theorem pipeDir_ne_empty (n : Nat) : pipeDir n ≠ "" := by
  intro h
  have hd := congrArg String.data h
  rw [pipeDir_data] at hd
  exact absurd hd (by simp)

theorem endsSlash_pipeDir (n : Nat) : endsSlash (pipeDir n) = false := by
  unfold endsSlash
  rw [pipeDir_data]
  cases h : (Nat.repr (n + 1)).data with
  | nil => decide
  | cons c cs =>
    rw [List.getLast?_append_of_ne_nil _ (by simp)]
    have hmem : ∀ x ∈ (c :: cs), x ≠ '/' := by
      rw [← h]
      exact repr_ne_slash (n + 1)
    cases hl : (c :: cs).getLast? with
    | none => rfl
    | some x =>
      rcases List.mem_getLast?_eq_getLast (Option.mem_def.mpr hl) with ⟨hne, hxe⟩
      have hx : x ∈ (c :: cs) := by rw [hxe]; exact List.getLast_mem hne
      simp [hmem x hx]

theorem startsSlash_pipeDir (n : Nat) : startsSlash (pipeDir n) = false := by
  unfold startsSlash
  rw [pipeDir_data]
  rfl

theorem lastSegment_no_slash (s : String) : ∀ c ∈ (lastSegment s).data, c ≠ '/' := by
  intro c hc
  unfold lastSegment at hc
  rw [show (String.mk ((s.data.reverse.takeWhile (fun c => c != '/')).reverse)).data =
      (s.data.reverse.takeWhile (fun c => c != '/')).reverse from rfl] at hc
  rw [List.mem_reverse] at hc
  simpa using List.mem_takeWhile_imp hc

theorem startsSlash_lastSegment (s : String) : startsSlash (lastSegment s) = false := by
  unfold startsSlash
  cases h : (lastSegment s).data with
  | nil => rfl
  | cons c cs =>
    have hne : c ≠ '/' := lastSegment_no_slash s c (by rw [h]; exact List.mem_cons_self c cs)
    simp [hne]

theorem joinOne_eq (acc b : String) (hacc1 : acc ≠ "") (hacc2 : endsSlash acc = false)
    (hb : startsSlash b = false) : joinOne acc b = acc ++ "/" ++ b := by
  have h1 : (acc == "") = false := beq_eq_false_iff_ne.mpr hacc1
  simp [joinOne, hb, h1, hacc2]

/-- The fully unfolded `main`-component target path: with a well-formed root
(non-empty, no trailing separator) and dataset name (non-empty, no leading or
trailing separator), `join` produces exactly
`{root}/{ds}/pipe_{n+1}/{F}`, with a `tmp` segment after the root in test
mode. -/
theorem newMainPath_eq (root ds : String) (n : Nat) (tm : Bool) (old : String)
    (hroot1 : root ≠ "") (hroot2 : endsSlash root = false)
    (hds1 : ds ≠ "") (hds2 : startsSlash ds = false) (hds3 : endsSlash ds = false) :
    newMainPath root ds n tm old =
      (if tm then root ++ "/" ++ "tmp" else root) ++ "/" ++ ds ++ "/" ++ "pipe_" ++
        toString (n + 1) ++ "/" ++ lastSegment old := by
  cases tm with
  | false =>
    show joinPath root [ds, pipeDir n, lastSegment old] = _
    unfold joinPath
    rw [show [ds, pipeDir n, lastSegment old].foldl joinOne root =
        joinOne (joinOne (joinOne root ds) (pipeDir n)) (lastSegment old) from rfl]
    rw [joinOne_eq root ds hroot1 hroot2 hds2]
    rw [joinOne_eq _ _ (str_append_ne_right _ _ hds1)
      (by rw [show root ++ "/" ++ ds = (root ++ "/") ++ ds from rfl,
          endsSlash_append _ _ hds1]; exact hds3)
      (startsSlash_pipeDir n)]
    rw [joinOne_eq _ _ (str_append_ne_right _ _ (pipeDir_ne_empty n))
      (by rw [endsSlash_append _ _ (pipeDir_ne_empty n)]; exact endsSlash_pipeDir n)
      (startsSlash_lastSegment old)]
    apply String.ext
    simp [String.data_append, pipeDir_data, List.append_assoc,
      show (toString (n + 1) : String).data = (Nat.repr (n + 1)).data from rfl]
  | true =>
    show joinPath root ["tmp", ds, pipeDir n, lastSegment old] = _
    unfold joinPath
    rw [show ["tmp", ds, pipeDir n, lastSegment old].foldl joinOne root =
        joinOne (joinOne (joinOne (joinOne root "tmp") ds) (pipeDir n)) (lastSegment old)
        from rfl]
    rw [joinOne_eq root "tmp" hroot1 hroot2 rfl]
    rw [joinOne_eq _ _ (str_append_ne_right _ _ (by intro h; exact absurd (congrArg String.data h) (by simp)))
      (by rw [show root ++ "/" ++ "tmp" = (root ++ "/") ++ "tmp" from rfl,
          endsSlash_append _ _ (by intro h; exact absurd (congrArg String.data h) (by simp))]; rfl)
      hds2]
    rw [joinOne_eq _ _ (str_append_ne_right _ _ hds1)
      (by rw [endsSlash_append _ _ hds1]; exact hds3)
      (startsSlash_pipeDir n)]
    rw [joinOne_eq _ _ (str_append_ne_right _ _ (pipeDir_ne_empty n))
      (by rw [endsSlash_append _ _ (pipeDir_ne_empty n)]; exact endsSlash_pipeDir n)
      (startsSlash_lastSegment old)]
    apply String.ext
    simp [String.data_append, pipeDir_data, List.append_assoc,
      show (toString (n + 1) : String).data = (Nat.repr (n + 1)).data from rfl]

theorem changeLoadPathComp_main_save (c : Comp) (n : Nat) (root ds : String) (tm : Bool)
    (hm : isTrueVal (dget c "main") = true) (sp : String)
    (hsp : dget c "save_path" = some (Val.vStr sp)) :
    dget (changeLoadPathComp n root ds tm c) "save_path" =
      some (Val.vStr (newMainPath root ds n tm sp)) := by
  simp only [changeLoadPathComp, hm, if_true, hsp, strVal]
  split
  · rw [dget_dset_ne _ _ _ _ (by decide), dget_dset_self]
  · rw [dget_dset_self]

theorem changeLoadPathComp_main_load (c : Comp) (n : Nat) (root ds : String) (tm : Bool)
    (hm : isTrueVal (dget c "main") = true) (lp : String)
    (hlp : dget c "load_path" = some (Val.vStr lp)) :
    dget (changeLoadPathComp n root ds tm c) "load_path" =
      some (Val.vStr (newMainPath root ds n tm lp)) := by
  simp only [changeLoadPathComp, hm, if_true]
  cases hsp : strVal (dget c "save_path") with
  | some sp =>
    have h2 : dget (dset c "save_path" (Val.vStr (newMainPath root ds n tm sp))) "load_path" =
        some (Val.vStr lp) := by
      rw [dget_dset_ne _ _ _ _ (by decide)]
      exact hlp
    rw [h2]
    simp only [strVal]
    rw [dget_dset_self]
  | none =>
    rw [hlp]
    simp only [strVal]
    rw [dget_dset_self]

/-- C5: for a component flagged `main` whose `save_path` (resp. `load_path`)
is a string with final segment `F`, path rewriting at 0-based index `n` sets
it to `{save_root}/{dataset_name}/pipe_{n+1}/F` and, in test mode, to
`{save_root}/tmp/{dataset_name}/pipe_{n+1}/F`; the rule applies to
`save_path` and `load_path` independently (the root is the expanded save
root; it must be non-empty without a trailing separator, and the dataset
name non-empty without leading or trailing separator, as produced by the
basename extraction). -/
theorem c5_main_path_rewrite (c : Comp) (n : Nat) (root ds : String) (tm : Bool)
    (hmain : dget c "main" = some (Val.vBool true))
    (hroot1 : root ≠ "") (hroot2 : endsSlash root = false)
    (hds1 : ds ≠ "") (hds2 : startsSlash ds = false) (hds3 : endsSlash ds = false) :
    (∀ sp : String, dget c "save_path" = some (Val.vStr sp) →
      dget (changeLoadPathComp n root ds tm c) "save_path" =
        some (Val.vStr ((if tm then root ++ "/" ++ "tmp" else root) ++ "/" ++ ds ++ "/" ++
          "pipe_" ++ toString (n + 1) ++ "/" ++ lastSegment sp))) ∧
    (∀ lp : String, dget c "load_path" = some (Val.vStr lp) →
      dget (changeLoadPathComp n root ds tm c) "load_path" =
        some (Val.vStr ((if tm then root ++ "/" ++ "tmp" else root) ++ "/" ++ ds ++ "/" ++
          "pipe_" ++ toString (n + 1) ++ "/" ++ lastSegment lp))) := by
  have hm : isTrueVal (dget c "main") = true := by rw [hmain]; rfl
  constructor
  · intro sp hsp
    rw [changeLoadPathComp_main_save c n root ds tm hm sp hsp,
      newMainPath_eq root ds n tm sp hroot1 hroot2 hds1 hds2 hds3]
  · intro lp hlp
    rw [changeLoadPathComp_main_load c n root ds tm hm lp hlp,
      newMainPath_eq root ds n tm lp hroot1 hroot2 hds1 hds2 hds3]

/-- Concrete `main` component for the C5 witness. -/
def c5comp : Comp :=
  [("component_name", Val.vStr "a"), ("main", Val.vBool true),
   ("save_path", Val.vStr "old/model.bin"), ("load_path", Val.vStr "other/weights.h5")]

theorem c5_main_path_rewrite_witness :
    dget c5comp "main" = some (Val.vBool true) ∧
    dget (changeLoadPathComp 4 "root" "ds" true c5comp) "save_path" =
      some (Val.vStr "root/tmp/ds/pipe_5/model.bin") ∧
    dget (changeLoadPathComp 4 "root" "ds" false c5comp) "load_path" =
      some (Val.vStr "root/ds/pipe_5/weights.h5") := by
  refine ⟨rfl, ?_, ?_⟩
  · rw [(c5_main_path_rewrite c5comp 4 "root" "ds" true rfl (by decide) rfl (by decide)
      rfl rfl).1 "old/model.bin" rfl]
    rfl
  · rw [(c5_main_path_rewrite c5comp 4 "root" "ds" false rfl (by decide) rfl (by decide)
      rfl rfl).2 "other/weights.h5" rfl]
    rfl

/-- First stage candidate of the C2 state. -/
def c2A : Comp := [("component_name", Val.vStr "compA")]

/-- Second stage candidate of the C2 state. -/
def c2B : Comp := [("component_name", Val.vStr "compB")]

/-- Concrete generator state with two raw variants whose pipes differ. -/
def c2state : GenState :=
  { datasetReader := Val.vDict [("data_path", Val.vStr "data/ds")]
  , datasetIterator := Val.vDict []
  , trainConfig := []
  , chainer := [("pipe", Val.vNull)]
  , struct := [[some c2A, some c2B]]
  , mode := "random"
  , testMode := false
  , savePath := "root"
  , sampleN := 10
  , metadata := none }

/-- Observation: the `component_name` of the first component of a chainer's
pipe. Two chainer values with different observations are different values. -/
def pipeNameObs (ch : Comp) : Option String :=
  match dget ch "pipe" with
  | some (.vList (Val.vDict c :: _)) =>
    match dget c "component_name" with
    | some (.vStr s) => some s
    | _ => none
  | _ => none

/-- C2 counterexample: on `c2state` both yielded configurations store the
template chainer object (address 0 twice — they are aliases, not deep
copies); after the full run the shared object's pipe holds the second
yield's component `compB`, while the first yielded configuration's chainer
held `compA` at its yield, and the stored template chainer held no pipe list
at all. Yielding (and path-rewriting) configuration 1 therefore mutated both
the stored template and the previously yielded configuration 0. -/
theorem c2_counterexample :
    (pipelineGenShared c2state sampleId).map
        (fun r => r.yields.map (fun y => y.chainerAddr)) = .ok [0, 0] ∧
    (pipelineGenShared c2state sampleId).map
        (fun r => (r.yields.map (fun y => pipeNameObs y.chainerAtYield))[0]?) =
      .ok (some (some "compA")) ∧
    (pipelineGenShared c2state sampleId).map (fun r => pipeNameObs r.finalChainer) =
      .ok (some "compB") ∧
    pipeNameObs c2state.chainer = none :=
  ⟨rfl, rfl, rfl, rfl⟩

/-- C2 (amended): each yielded configuration deep-copies only the dataset
reader (the reader objects carry pairwise distinct fresh addresses), while
every yielded configuration stores the one shared template chainer object
(address 0); consequently after the run the shared chainer — seen by the
stored template and by every yielded configuration alike — holds exactly the
last yielded pipe (the template's original chainer value when nothing was
yielded), and the per-yield snapshots are those of the value-level run. -/
theorem c2_chainer_sharing (s : GenState) (sample : Nat → Comp → Comp) (r : SharedRun)
    (h : pipelineGenShared s sample = .ok r) :
    (∀ y ∈ r.yields, y.chainerAddr = 0) ∧
    r.yields.map (fun y => y.drAddr) = (List.range r.yields.length).map (fun k => 1 + k) ∧
    r.finalChainer = ((r.yields.getLast?).map (fun y => y.chainerAtYield)).getD s.chainer ∧
    (pipelineGen s sample).map (fun cfgs => cfgs.map (fun c => c.chainer)) =
      .ok (r.yields.map (fun y => y.chainerAtYield)) := by
  unfold pipelineGenShared at h
  cases hp : pipelineGen s sample with
  | error e => rw [hp] at h; cases h
  | ok cfgs =>
    rw [hp] at h
    injection h with h
    subst h
    refine ⟨?_, ?_, ?_, ?_⟩
    · intro y hy
      rcases List.mem_map.mp hy with ⟨kc, _, rfl⟩
      rfl
    · simp only [List.map_map, List.length_map, List.enum_length]
      rw [show ((fun y : YieldRef => y.drAddr) ∘ fun kc : Nat × OutConfig =>
          YieldRef.mk 0 (1 + kc.1) kc.2.chainer) = (fun k => 1 + k) ∘ Prod.fst from rfl]
      rw [← List.map_map, List.enum_map_fst]
    · rw [List.getLast?_map]
      cases hl : cfgs.enum.getLast? with
      | none =>
        have he : cfgs.enum = [] := List.getLast?_eq_none_iff.mp hl
        have hlen : cfgs.length = 0 := by simpa using congrArg List.length he
        have hnil : cfgs = [] := List.length_eq_zero.mp hlen
        subst hnil
        rfl
      | some kc =>
        have h2 : cfgs.getLast? = some kc.2 := by
          have := congrArg (fun o => Option.map Prod.snd o) hl
          simp only at this
          rw [← List.getLast?_map, List.enum_map_snd] at this
          exact this
        rw [h2]
        rfl
    · show Except.ok (cfgs.map (fun c => c.chainer)) =
        Except.ok ((cfgs.enum.map (fun kc : Nat × OutConfig =>
          YieldRef.mk 0 (1 + kc.1) kc.2.chainer)).map (fun y => y.chainerAtYield))
      rw [List.map_map]
      rw [show ((fun y : YieldRef => y.chainerAtYield) ∘ fun kc : Nat × OutConfig =>
          YieldRef.mk 0 (1 + kc.1) kc.2.chainer) =
          (fun c : OutConfig => c.chainer) ∘ Prod.snd from rfl]
      rw [← List.map_map, List.enum_map_snd]

/-- The concrete heap-aware run on `c2state`. -/
def c2run : SharedRun :=
  { yields := [⟨0, 1, [("pipe", Val.vList [Val.vDict c2A])]⟩,
               ⟨0, 2, [("pipe", Val.vList [Val.vDict c2B])]⟩]
  , finalChainer := [("pipe", Val.vList [Val.vDict c2B])] }

theorem c2_chainer_sharing_witness :
    pipelineGenShared c2state sampleId = .ok c2run ∧
    (∀ y ∈ c2run.yields, y.chainerAddr = 0) ∧
    c2run.yields.map (fun y => y.drAddr) =
      (List.range c2run.yields.length).map (fun k => 1 + k) ∧
    c2run.finalChainer =
      ((c2run.yields.getLast?).map (fun y => y.chainerAtYield)).getD c2state.chainer ∧
    (pipelineGen c2state sampleId).map (fun cfgs => cfgs.map (fun c => c.chainer)) =
      .ok (c2run.yields.map (fun y => y.chainerAtYield)) := by
  have h := c2_chainer_sharing c2state sampleId c2run rfl
  exact ⟨rfl, h.1, h.2.1, h.2.2.1, h.2.2.2⟩

/-- Is a value a Python dict? -/
def isDictVal : Val → Bool
  | .vDict _ => true
  | _ => false

/-- Is a value a Python list? -/
def isListVal : Val → Bool
  | .vList _ => true
  | _ => false

/-- Is the `dataset_iterator` entry present but not a dict (the condition of
pipegen.py line 66)? -/
def diNotDict (cfg : Comp) : Bool :=
  match dget cfg "dataset_iterator" with
  | some v => !isDictVal v
  | none => false

/-- A stage candidate that the component-name check accepts. -/
def candOkB : Val → Bool
  | .vNull => true
  | .vDict d => hasKey d "component_name"
  | _ => false

/-- A stage candidate of a shape the check can process without a Python
`AttributeError` (null or dict). -/
def candShapeB : Val → Bool
  | .vNull => true
  | .vDict _ => true
  | _ => false

/-- A non-null candidate lacking `component_name`. -/
def candMissingB : Val → Bool
  | .vDict d => !hasKey d "component_name"
  | _ => false

/-- A stage (list of candidates) of processable shape. -/
def stageShapeB : Val → Bool
  | .vList cands => cands.all candShapeB
  | _ => false

/-- A stage containing some non-null candidate lacking `component_name`. -/
def stageMissingB : Val → Bool
  | .vList cands => cands.any candMissingB
  | _ => false

/-- A stage the component-name check fully accepts. -/
def stageOkB : Val → Bool
  | .vList cands => cands.all candOkB
  | _ => false

/-- Does some non-null stage candidate of the template lack
`component_name`? (False when the chainer or pipe has a different shape.) -/
def someMissingName (cfg : Comp) : Bool :=
  match dget cfg "chainer" with
  | some (.vDict chd) =>
    match dget chd "pipe" with
    | some (.vList stages) => stages.any stageMissingB
    | _ => false
  | _ => false

/-- Well-formedness envelope for the construction-error analysis: the three
sibling keys are present, and the chainer, when present, is a dict whose
`pipe` key exists; a list-valued pipe moreover consists of list stages whose
candidates are null or dicts (otherwise Python fails with a non-config
`TypeError`/`AttributeError` whose position in the check order would depend
on the malformed entry). -/
def wfTemplate (cfg : Comp) : Bool :=
  hasKey cfg "dataset_reader" && hasKey cfg "dataset_iterator" && hasKey cfg "train" &&
  (match dget cfg "chainer" with
   | none => true
   | some (.vDict chd) =>
     match dget chd "pipe" with
     | some (.vList stages) => stages.all stageShapeB
     | some _ => true
     | none => false
   | some _ => false)

theorem dget_of_hasKey {d : Comp} {k : String} (h : hasKey d k = true) :
    ∃ v, dget d k = some v := by
  induction d with
  | nil => simp [hasKey] at h
  | cons p rest ih =>
    by_cases hp : p.1 = k
    · exact ⟨p.2, dget_cons_eq rest hp⟩
    · rw [dget_cons_ne rest hp]
      apply ih
      simpa [hasKey, List.any_cons, hp] using h

theorem checkCands_ok (i j : Nat) (cands : List Val) (h : cands.all candOkB = true) :
    checkCands i j cands = .ok () := by
  induction cands generalizing j with
  | nil => rfl
  | cons cand rest ih =>
    rw [List.all_cons, Bool.and_eq_true] at h
    cases cand with
    | vNull => exact ih (j + 1) h.2
    | vDict d =>
      rw [checkCands, if_pos (show hasKey d "component_name" = true from h.1)]
      exact ih (j + 1) h.2
    | vBool b => exact absurd h.1 (by simp [candOkB])
    | vInt m => exact absurd h.1 (by simp [candOkB])
    | vStr s => exact absurd h.1 (by simp [candOkB])
    | vList l => exact absurd h.1 (by simp [candOkB])

theorem checkStages_ok (i : Nat) (stages : List Val) (h : stages.all stageOkB = true) :
    checkStages i stages = .ok () := by
  induction stages generalizing i with
  | nil => rfl
  | cons st rest ih =>
    rw [List.all_cons, Bool.and_eq_true] at h
    cases st with
    | vList cands =>
      rw [checkStages, checkCands_ok i 0 cands h.1]
      exact ih (i + 1) h.2
    | vNull => exact absurd h.1 (by simp [stageOkB])
    | vBool b => exact absurd h.1 (by simp [stageOkB])
    | vInt m => exact absurd h.1 (by simp [stageOkB])
    | vStr s => exact absurd h.1 (by simp [stageOkB])
    | vDict d => exact absurd h.1 (by simp [stageOkB])

theorem checkCands_config_of_missing (i j : Nat) (cands : List Val)
    (hs : cands.all candShapeB = true) (hm : cands.any candMissingB = true) :
    isConfigError (checkCands i j cands) = true := by
  induction cands generalizing j with
  | nil => simp at hm
  | cons cand rest ih =>
    rw [List.all_cons, Bool.and_eq_true] at hs
    rw [List.any_cons, Bool.or_eq_true] at hm
    cases cand with
    | vNull =>
      rcases hm with hm | hm
      · exact absurd hm (by simp [candMissingB])
      · exact ih (j + 1) hs.2 hm
    | vDict d =>
      by_cases hk : hasKey d "component_name"
      · rw [checkCands, if_pos hk]
        rcases hm with hm | hm
        · rw [candMissingB, hk] at hm
          exact absurd hm (by simp)
        · exact ih (j + 1) hs.2 hm
      · rw [checkCands, if_neg hk]
        rfl
    | vBool b => exact absurd hs.1 (by simp [candShapeB])
    | vInt m => exact absurd hs.1 (by simp [candShapeB])
    | vStr s => exact absurd hs.1 (by simp [candShapeB])
    | vList l => exact absurd hs.1 (by simp [candShapeB])

theorem stageOk_of (st : Val) (hs : stageShapeB st = true) (hm : stageMissingB st = false) :
    stageOkB st = true := by
  cases st with
  | vList cands =>
    rw [stageOkB, List.all_eq_true]
    rw [stageShapeB, List.all_eq_true] at hs
    rw [stageMissingB] at hm
    intro cand hc
    have h1 := hs cand hc
    have h2 : candMissingB cand = false := by
      by_contra h3
      rw [List.any_eq_false] at hm
      exact hm cand hc (Bool.of_not_eq_false h3)
    cases cand with
    | vNull => rfl
    | vDict d =>
      rw [candMissingB, Bool.not_eq_false'] at h2
      exact h2
    | vBool b => exact absurd h1 (by simp [candShapeB])
    | vInt m => exact absurd h1 (by simp [candShapeB])
    | vStr s => exact absurd h1 (by simp [candShapeB])
    | vList l => exact absurd h1 (by simp [candShapeB])
  | vNull => exact absurd hs (by simp [stageShapeB])
  | vBool b => exact absurd hs (by simp [stageShapeB])
  | vInt m => exact absurd hs (by simp [stageShapeB])
  | vStr s => exact absurd hs (by simp [stageShapeB])
  | vDict d => exact absurd hs (by simp [stageShapeB])

theorem checkStages_config_of_missing (i : Nat) (stages : List Val)
    (hs : stages.all stageShapeB = true) (hm : stages.any stageMissingB = true) :
    isConfigError (checkStages i stages) = true := by
  induction stages generalizing i with
  | nil => simp at hm
  | cons st rest ih =>
    rw [List.all_cons, Bool.and_eq_true] at hs
    rw [List.any_cons, Bool.or_eq_true] at hm
    by_cases hstm : stageMissingB st = true
    · cases st with
      | vList cands =>
        rw [stageMissingB] at hstm
        have hconf := checkCands_config_of_missing i 0 cands (by
          rw [stageShapeB] at hs
          exact hs.1) hstm
        rw [checkStages]
        cases hc : checkCands i 0 cands with
        | ok u => rw [hc] at hconf; exact absurd hconf (by simp [isConfigError])
        | error e =>
          rw [hc] at hconf
          cases e with
          | configError msg => rfl
          | otherError msg => exact absurd hconf (by simp [isConfigError])
      | vNull => exact absurd hs.1 (by simp [stageShapeB])
      | vBool b => exact absurd hs.1 (by simp [stageShapeB])
      | vInt m => exact absurd hs.1 (by simp [stageShapeB])
      | vStr s => exact absurd hs.1 (by simp [stageShapeB])
      | vDict d => exact absurd hs.1 (by simp [stageShapeB])
    · have hok : stageOkB st = true :=
        stageOk_of st hs.1 (Bool.not_eq_true _ ▸ (by simpa using hstm))
      have hrest : rest.any stageMissingB = true := by
        rcases hm with hm | hm
        · exact absurd hm hstm
        · exact hm
      cases st with
      | vList cands =>
        rw [checkStages, checkCands_ok i 0 cands (by rw [stageOkB] at hok; exact hok)]
        exact ih (i + 1) hs.2 hrest
      | vNull => exact absurd hok (by simp [stageOkB])
      | vBool b => exact absurd hok (by simp [stageOkB])
      | vInt m => exact absurd hok (by simp [stageOkB])
      | vStr s => exact absurd hok (by simp [stageOkB])
      | vDict d => exact absurd hok (by simp [stageOkB])

theorem isConfigError_postLen (s : GenState) (r : Except PyErr Nat) :
    isConfigError (postLen s r) = false := by
  cases r <;> rfl

theorem isConfigError_construct (cfg : Comp) (mode : String) (tm : Bool) (spth : String)
    (n : Nat) (sample : Nat → Comp → Comp) :
    isConfigError (construct cfg mode tm spth n sample) =
      isConfigError (initCheck cfg mode) := by
  unfold construct
  split
  next e heq =>
    rw [heq]
    cases e <;> rfl
  next dr di tr chd pipeVal heq =>
    rw [heq]
    cases tr with
    | vDict trainC =>
      show isConfigError (postLen _ _) = _
      rw [isConfigError_postLen]
      rfl
    | vNull => rfl
    | vBool b => rfl
    | vInt m => rfl
    | vStr s => rfl
    | vList l => rfl

theorem isConfigError_initCheck_iff (cfg : Comp) (mode : String)
    (hwf : wfTemplate cfg = true) :
    isConfigError (initCheck cfg mode) = true ↔
      (!hasKey cfg "chainer" || diNotDict cfg ||
        !(mode == "random" || mode == "grid") || someMissingName cfg) = true := by
  rw [wfTemplate, Bool.and_eq_true, Bool.and_eq_true, Bool.and_eq_true] at hwf
  obtain ⟨⟨⟨hdr, hdi⟩, htr⟩, hch⟩ := hwf
  by_cases hchain : hasKey cfg "chainer"
  · rcases dget_of_hasKey hdr with ⟨drv, hdrv⟩
    rcases dget_of_hasKey hdi with ⟨div, hdiv⟩
    rcases dget_of_hasKey htr with ⟨trv, htrv⟩
    rcases dget_of_hasKey hchain with ⟨chv, hchv⟩
    rw [hchv] at hch
    unfold initCheck
    rw [if_neg (by rw [hchain]; simp), hdrv, hdiv, htrv, hchv]
    simp only []
    cases div with
    | vDict dientries =>
      simp only []
      cases chv with
      | vDict chd =>
        simp only [] at hch ⊢
        cases hpipe : dget chd "pipe" with
        | none => rw [hpipe] at hch; exact absurd hch (by simp)
        | some pipeVal =>
          rw [hpipe] at hch
          simp only [] at hch ⊢
          by_cases hmode : (mode == "random" || mode == "grid") = true
          · rw [if_pos hmode]
            cases pipeVal with
            | vList stages =>
              simp only [] at hch
              by_cases hmiss : stages.any stageMissingB = true
              · have hconf := checkStages_config_of_missing 0 stages hch hmiss
                cases hcs : checkStages 0 stages with
                | ok u =>
                  rw [hcs] at hconf
                  exact absurd hconf (by simp [isConfigError])
                | error e =>
                  rw [hcs] at hconf
                  cases e with
                  | configError msg =>
                    rw [show checkStructure (Val.vList stages) =
                      .error (InitError.configError msg) from by rw [checkStructure, hcs]]
                    simp only [isConfigError]
                    simp [someMissingName, hchv, hpipe, hmiss]
                  | otherError msg => exact absurd hconf (by simp [isConfigError])
              · have hok : stages.all stageOkB = true := by
                  rw [List.all_eq_true]
                  intro st hst
                  refine stageOk_of st (List.all_eq_true.mp hch st hst) ?_
                  by_contra h3
                  exact hmiss (List.any_eq_true.mpr
                    ⟨st, hst, Bool.of_not_eq_false h3⟩)
                rw [show checkStructure (Val.vList stages) = .ok () from by
                  rw [checkStructure, checkStages_ok 0 stages hok]]
                simp only [isConfigError]
                constructor
                · intro h
                  exact absurd h (by simp)
                · intro h
                  have h1 : (!hasKey cfg "chainer") = false := by rw [hchain]; rfl
                  have h2 : diNotDict cfg = false := by
                    simp [diNotDict, hdiv, isDictVal]
                  have h3 : (!(mode == "random" || mode == "grid")) = false := by
                    rw [hmode]; rfl
                  have h4 : someMissingName cfg = false := by
                    simp only [someMissingName, hchv, hpipe]
                    exact Bool.eq_false_iff.mpr hmiss
                  rw [h1, h2, h3, h4] at h
                  exact absurd h (by simp)
            | vNull =>
              rw [show checkStructure Val.vNull =
                .error (InitError.otherError "TypeError") from rfl]
              simp only [isConfigError]
              simp [hchain, diNotDict, hdiv, isDictVal, hmode, someMissingName, hchv, hpipe]
            | vBool b =>
              rw [show checkStructure (Val.vBool b) =
                .error (InitError.otherError "TypeError") from rfl]
              simp only [isConfigError]
              simp [hchain, diNotDict, hdiv, isDictVal, hmode, someMissingName, hchv, hpipe]
            | vInt m =>
              rw [show checkStructure (Val.vInt m) =
                .error (InitError.otherError "TypeError") from rfl]
              simp only [isConfigError]
              simp [hchain, diNotDict, hdiv, isDictVal, hmode, someMissingName, hchv, hpipe]
            | vStr s2 =>
              rw [show checkStructure (Val.vStr s2) =
                .error (InitError.otherError "TypeError") from rfl]
              simp only [isConfigError]
              simp [hchain, diNotDict, hdiv, isDictVal, hmode, someMissingName, hchv, hpipe]
            | vDict d2 =>
              rw [show checkStructure (Val.vDict d2) =
                .error (InitError.otherError "TypeError") from rfl]
              simp only [isConfigError]
              simp [hchain, diNotDict, hdiv, isDictVal, hmode, someMissingName, hchv, hpipe]
          · rw [if_neg hmode]
            simp only [isConfigError]
            simp [hmode]
      | vNull => exact absurd hch (by simp)
      | vBool b => exact absurd hch (by simp)
      | vInt m => exact absurd hch (by simp)
      | vStr s2 => exact absurd hch (by simp)
      | vList l => exact absurd hch (by simp)
    | vNull =>
      simp only [isConfigError]
      simp [diNotDict, hdiv, isDictVal]
    | vBool b =>
      simp only [isConfigError]
      simp [diNotDict, hdiv, isDictVal]
    | vInt m =>
      simp only [isConfigError]
      simp [diNotDict, hdiv, isDictVal]
    | vStr s2 =>
      simp only [isConfigError]
      simp [diNotDict, hdiv, isDictVal]
    | vList l =>
      simp only [isConfigError]
      simp [diNotDict, hdiv, isDictVal]
  · unfold initCheck
    rw [if_pos (by rw [Bool.not_eq_true] at hchain; rw [hchain]; rfl)]
    simp only [isConfigError]
    simp [hchain]

theorem checkCands_missing (i j : Nat) (cpre : List Val) (d : Comp) (crest : List Val)
    (hpre : cpre.all candOkB = true) (hd : hasKey d "component_name" = false) :
    checkCands i j (cpre ++ Val.vDict d :: crest) =
      .error (.configError (componentMsg (i + 1) (j + cpre.length + 1))) := by
  induction cpre generalizing j with
  | nil =>
    rw [List.nil_append, checkCands, if_neg (by rw [hd]; simp)]
    rw [show j + List.length ([] : List Val) + 1 = j + 1 from by simp]
  | cons cand cpre ih =>
    rw [List.all_cons, Bool.and_eq_true] at hpre
    rw [List.cons_append]
    have harith : j + (cand :: cpre).length + 1 = (j + 1) + cpre.length + 1 := by
      rw [List.length_cons]
      omega
    rw [harith]
    cases cand with
    | vNull => exact ih (j + 1) hpre.2
    | vDict d2 =>
      rw [checkCands, if_pos (show hasKey d2 "component_name" = true from hpre.1)]
      exact ih (j + 1) hpre.2
    | vBool b => exact absurd hpre.1 (by simp [candOkB])
    | vInt m => exact absurd hpre.1 (by simp [candOkB])
    | vStr s => exact absurd hpre.1 (by simp [candOkB])
    | vList l => exact absurd hpre.1 (by simp [candOkB])

theorem checkStages_first (i0 : Nat) (spre : List Val) (cands : List Val) (srest : List Val)
    (hpre : spre.all stageOkB = true) (e : InitError)
    (hcc : checkCands (i0 + spre.length) 0 cands = .error e) :
    checkStages i0 (spre ++ Val.vList cands :: srest) = .error e := by
  induction spre generalizing i0 with
  | nil =>
    have hcc2 : checkCands i0 0 cands = .error e := by
      rw [show i0 = i0 + List.length ([] : List Val) from by simp]
      exact hcc
    rw [List.nil_append, checkStages, hcc2]
  | cons st spre ih =>
    rw [List.all_cons, Bool.and_eq_true] at hpre
    rw [List.cons_append]
    have hcc2 : checkCands (i0 + 1 + spre.length) 0 cands = .error e := by
      rw [show i0 + 1 + spre.length = i0 + (st :: spre).length from by
        rw [List.length_cons]; omega]
      exact hcc
    cases st with
    | vList stc =>
      rw [checkStages, checkCands_ok i0 0 stc (show stc.all candOkB = true from hpre.1)]
      exact ih (i0 + 1) hpre.2 hcc2
    | vNull => exact absurd hpre.1 (by simp [stageOkB])
    | vBool b => exact absurd hpre.1 (by simp [stageOkB])
    | vInt m => exact absurd hpre.1 (by simp [stageOkB])
    | vStr s => exact absurd hpre.1 (by simp [stageOkB])
    | vDict d => exact absurd hpre.1 (by simp [stageOkB])

theorem construct_of_initCheck_error (cfg : Comp) (mode : String) (tm : Bool) (spth : String)
    (n : Nat) (sample : Nat → Comp → Comp) {e : InitError}
    (h : initCheck cfg mode = .error e) :
    construct cfg mode tm spth n sample = .error e := by
  unfold construct
  rw [h]

theorem initCheck_reaches_mode (cfg : Comp) (mode : String) (drv trv : Val)
    (dientries chd : Comp) (pipeVal : Val)
    (hch : hasKey cfg "chainer" = true)
    (hdrv : dget cfg "dataset_reader" = some drv)
    (hdiv : dget cfg "dataset_iterator" = some (Val.vDict dientries))
    (htrv : dget cfg "train" = some trv)
    (hchv : dget cfg "chainer" = some (Val.vDict chd))
    (hpipe : dget chd "pipe" = some pipeVal) :
    initCheck cfg mode =
      (if (mode == "random" || mode == "grid") = true then
        match checkStructure pipeVal with
        | .ok _ => .ok (drv, Val.vDict dientries, trv, chd, pipeVal)
        | .error e => .error e
      else .error (.configError (modeMsg mode))) := by
  unfold initCheck
  rw [if_neg (by rw [hch]; simp), hdrv, hdiv]
  simp only []
  rw [htrv, hchv]
  simp only []
  rw [hpipe]

theorem hasKey_of_dget {d : Comp} {k : String} {v : Val} (h : dget d k = some v) :
    hasKey d k = true := by
  induction d with
  | nil => simp [dget, List.find?] at h
  | cons p rest ih =>
    by_cases hp : p.1 = k
    · simp [hasKey, List.any_cons, hp]
    · rw [dget_cons_ne rest hp] at h
      simpa [hasKey, List.any_cons, hp] using ih h

/-- C6 (amended): with a well-formed template envelope, construction raises
`ConfigError` — always before any configuration is produced, since all four
checks precede the eager `get_len` drain, whose own failures are non-config
Python exceptions — exactly when: the template lacks `chainer`;
`dataset_iterator` is present as any non-dict value (not only a list); the
mode string is neither "random" nor "grid"; or some non-null stage
candidate lacks `component_name`. Moreover, an invalid mode produces the
error message naming the mode, and a first missing `component_name` at
stage `i`, candidate `j` (0-based, all earlier candidates fine) produces
the message naming positions `i+1` and `j+1`. -/
theorem c6_construction_errors (cfg : Comp) (mode : String) (tm : Bool) (spth : String)
    (n : Nat) (sample : Nat → Comp → Comp) (hwf : wfTemplate cfg = true) :
    (isConfigError (construct cfg mode tm spth n sample) = true ↔
      (!hasKey cfg "chainer" || diNotDict cfg ||
        !(mode == "random" || mode == "grid") || someMissingName cfg) = true) ∧
    ((mode == "random" || mode == "grid") = false →
      hasKey cfg "chainer" = true → diNotDict cfg = false →
      construct cfg mode tm spth n sample = .error (.configError (modeMsg mode))) ∧
    (∀ (chd : Comp) (spre cpre : List Val) (d : Comp) (crest srest : List Val),
      dget cfg "chainer" = some (Val.vDict chd) →
      dget chd "pipe" =
        some (Val.vList (spre ++ Val.vList (cpre ++ Val.vDict d :: crest) :: srest)) →
      diNotDict cfg = false →
      (mode == "random" || mode == "grid") = true →
      spre.all stageOkB = true → cpre.all candOkB = true →
      hasKey d "component_name" = false →
      construct cfg mode tm spth n sample =
        .error (.configError (componentMsg (spre.length + 1) (cpre.length + 1)))) := by
  have hwf2 := hwf
  rw [wfTemplate, Bool.and_eq_true, Bool.and_eq_true, Bool.and_eq_true] at hwf2
  obtain ⟨⟨⟨hdr, hdi⟩, htr⟩, hch⟩ := hwf2
  refine ⟨?_, ?_, ?_⟩
  · rw [isConfigError_construct]
    exact isConfigError_initCheck_iff cfg mode hwf
  · intro hmode hchain hdidict
    rcases dget_of_hasKey hdr with ⟨drv, hdrv⟩
    rcases dget_of_hasKey hdi with ⟨div, hdiv⟩
    rcases dget_of_hasKey htr with ⟨trv, htrv⟩
    rcases dget_of_hasKey hchain with ⟨chv, hchv⟩
    have hdivd : ∃ dientries, div = Val.vDict dientries := by
      cases div with
      | vDict e2 => exact ⟨e2, rfl⟩
      | vNull => simp [diNotDict, hdiv, isDictVal] at hdidict
      | vBool b => simp [diNotDict, hdiv, isDictVal] at hdidict
      | vInt m => simp [diNotDict, hdiv, isDictVal] at hdidict
      | vStr s2 => simp [diNotDict, hdiv, isDictVal] at hdidict
      | vList l => simp [diNotDict, hdiv, isDictVal] at hdidict
    rcases hdivd with ⟨dientries, rfl⟩
    rw [hchv] at hch
    cases chv with
    | vDict chd =>
      simp only [] at hch
      cases hpipe : dget chd "pipe" with
      | none => rw [hpipe] at hch; exact absurd hch (by simp)
      | some pipeVal =>
        apply construct_of_initCheck_error
        rw [initCheck_reaches_mode cfg mode drv trv dientries chd pipeVal hchain hdrv hdiv
          htrv hchv hpipe]
        rw [if_neg (by rw [hmode]; simp)]
    | vNull => exact absurd hch (by simp)
    | vBool b => exact absurd hch (by simp)
    | vInt m => exact absurd hch (by simp)
    | vStr s2 => exact absurd hch (by simp)
    | vList l => exact absurd hch (by simp)
  · intro chd spre cpre d crest srest hchv hpipe hdidict hmode hspre hcpre hd
    have hchain : hasKey cfg "chainer" = true := hasKey_of_dget hchv
    rcases dget_of_hasKey hdr with ⟨drv, hdrv⟩
    rcases dget_of_hasKey hdi with ⟨div, hdiv⟩
    rcases dget_of_hasKey htr with ⟨trv, htrv⟩
    have hdivd : ∃ dientries, div = Val.vDict dientries := by
      cases div with
      | vDict e2 => exact ⟨e2, rfl⟩
      | vNull => simp [diNotDict, hdiv, isDictVal] at hdidict
      | vBool b => simp [diNotDict, hdiv, isDictVal] at hdidict
      | vInt m => simp [diNotDict, hdiv, isDictVal] at hdidict
      | vStr s2 => simp [diNotDict, hdiv, isDictVal] at hdidict
      | vList l => simp [diNotDict, hdiv, isDictVal] at hdidict
    rcases hdivd with ⟨dientries, rfl⟩
    apply construct_of_initCheck_error
    rw [initCheck_reaches_mode cfg mode drv trv dientries chd _ hchain hdrv hdiv htrv hchv
      hpipe]
    rw [if_pos hmode]
    have hcs : checkStages 0 (spre ++ Val.vList (cpre ++ Val.vDict d :: crest) :: srest) =
        .error (.configError (componentMsg (spre.length + 1) (cpre.length + 1))) := by
      apply checkStages_first 0 spre _ srest hspre
      have hm := checkCands_missing (0 + spre.length) 0 cpre d crest hcpre hd
      rw [show 0 + spre.length + 1 = spre.length + 1 from by omega,
        show 0 + cpre.length + 1 = cpre.length + 1 from by omega] at hm
      exact hm
    rw [show checkStructure
        (Val.vList (spre ++ Val.vList (cpre ++ Val.vDict d :: crest) :: srest)) =
        .error (.configError (componentMsg (spre.length + 1) (cpre.length + 1))) from by
      rw [checkStructure, hcs]]

/-- Template whose `dataset_iterator` is a string: not a list, yet
construction raises `ConfigError`. -/
def c6cfg : Comp :=
  [("dataset_reader", Val.vDict [("data_path", Val.vStr "data/ds")]),
   ("dataset_iterator", Val.vStr "iter"),
   ("train", Val.vDict [("batch_size", Val.vInt 16)]),
   ("chainer", Val.vDict [("pipe",
     Val.vList [Val.vList [Val.vDict [("component_name", Val.vStr "a")]]])])]

/-- C6 counterexample: construction of `c6cfg` with the valid mode "random"
raises a `ConfigError` (the dataset-iterator type check, pipegen.py line 66)
although none of the claim's four cases holds: `chainer` is present,
`dataset_iterator` is a string — not a list, every non-null component has
`component_name`, and the mode is valid. The code rejects every non-dict
iterator, not only lists. -/
theorem c6_counterexample :
    isConfigError (construct c6cfg "random" false "root" 10 sampleId) = true ∧
    hasKey c6cfg "chainer" = true ∧
    dget c6cfg "dataset_iterator" = some (Val.vStr "iter") ∧
    isListVal (Val.vStr "iter") = false ∧
    ("random" == "random" || "random" == "grid") = true ∧
    someMissingName c6cfg = false :=
  ⟨rfl, rfl, rfl, rfl, rfl, rfl⟩

/-- Well-formed template whose single stage has a named component, a null
slot, and a component lacking `component_name` at candidate position 3. -/
def c6w : Comp :=
  [("dataset_reader", Val.vDict [("data_path", Val.vStr "data/ds")]),
   ("dataset_iterator", Val.vDict []),
   ("train", Val.vDict []),
   ("chainer", Val.vDict [("pipe",
     Val.vList [Val.vList [Val.vDict [("component_name", Val.vStr "a")], Val.vNull,
       Val.vDict [("x", Val.vInt 1)]]])])]

theorem c6_construction_errors_witness :
    wfTemplate c6w = true ∧
    construct c6w "grid" false "root" 3 sampleId =
      .error (.configError (componentMsg 1 3)) ∧
    construct c6w "bogus" false "root" 3 sampleId =
      .error (.configError (modeMsg "bogus")) ∧
    isConfigError (construct c6w "bogus" false "root" 3 sampleId) = true := by
  refine ⟨rfl, ?_, ?_, ?_⟩
  · exact (c6_construction_errors c6w "grid" false "root" 3 sampleId rfl).2.2
      [("pipe", Val.vList [Val.vList [Val.vDict [("component_name", Val.vStr "a")],
        Val.vNull, Val.vDict [("x", Val.vInt 1)]]])]
      [] [Val.vDict [("component_name", Val.vStr "a")], Val.vNull]
      [("x", Val.vInt 1)] [] [] rfl rfl rfl rfl rfl rfl rfl
  · exact (c6_construction_errors c6w "bogus" false "root" 3 sampleId rfl).2.1 rfl rfl rfl
  · exact (c6_construction_errors c6w "bogus" false "root" 3 sampleId rfl).1.mpr rfl

/-- Is a value a Python string? -/
def isStrVal : Val → Bool
  | .vStr _ => true
  | _ => false

/-- Two dict entries that agree except possibly in a string-valued
`save_path`/`load_path` value: exactly the difference an in-place path
rewrite can introduce. -/
def entryRel (p q : String × Val) : Prop :=
  p.1 = q.1 ∧ (p.2 = q.2 ∨
    ((p.1 = "save_path" ∨ p.1 = "load_path") ∧ isStrVal p.2 = true ∧ isStrVal q.2 = true))

/-- Components that differ only in string-valued path entries. -/
def compPathRel (c c2 : Comp) : Prop := List.Forall₂ entryRel c c2

/-- Stage candidates related pointwise (null-ness preserved). -/
def candRel : Option Comp → Option Comp → Prop
  | some c, some c2 => compPathRel c c2
  | none, none => True
  | _, _ => False

/-- Stages related pointwise. -/
def stageRel (st st2 : List (Option Comp)) : Prop := List.Forall₂ candRel st st2

/-- Structures related pointwise. -/
def structRel (a b : List (List (Option Comp))) : Prop := List.Forall₂ stageRel a b

/-- Generator states that agree everywhere except that the stage components
may have had their path strings rewritten in place and the chainer object
may hold anything (a full run overwrites its `pipe` entry): exactly the
state difference one `get_len` drain can leave behind. -/
def stateRel (s t : GenState) : Prop :=
  s.datasetReader = t.datasetReader ∧ s.datasetIterator = t.datasetIterator ∧
  s.trainConfig = t.trainConfig ∧ s.mode = t.mode ∧ s.testMode = t.testMode ∧
  s.savePath = t.savePath ∧ s.sampleN = t.sampleN ∧ s.metadata = t.metadata ∧
  structRel s.struct t.struct

theorem entryRel_refl (p : String × Val) : entryRel p p := ⟨rfl, Or.inl rfl⟩

theorem compPathRel_refl (c : Comp) : compPathRel c c := by
  induction c with
  | nil => exact List.Forall₂.nil
  | cons p rest ih => exact List.Forall₂.cons (entryRel_refl p) ih

theorem entryRel_trans {p q r : String × Val} (h1 : entryRel p q) (h2 : entryRel q r) :
    entryRel p r := by
  refine ⟨h1.1.trans h2.1, ?_⟩
  rcases h1.2 with he | ⟨hk, hs1, hs2⟩
  · rcases h2.2 with he2 | ⟨hk2, hs3, hs4⟩
    · exact Or.inl (he.trans he2)
    · exact Or.inr ⟨h1.1 ▸ hk2, he ▸ hs3, hs4⟩
  · rcases h2.2 with he2 | ⟨hk2, hs3, hs4⟩
    · exact Or.inr ⟨hk, hs1, he2 ▸ hs2⟩
    · exact Or.inr ⟨hk, hs1, hs4⟩


theorem compPathRel_trans {a b c : Comp} (h1 : compPathRel a b) (h2 : compPathRel b c) :
    compPathRel a c := by
  induction h1 generalizing c with
  | nil =>
    cases h2
    exact List.Forall₂.nil
  | cons hpq hrest ih =>
    cases h2 with
    | cons hqr hrest2 => exact List.Forall₂.cons (entryRel_trans hpq hqr) (ih hrest2)

theorem compPathRel_isEmpty {c c2 : Comp} (h : compPathRel c c2) :
    c.isEmpty = c2.isEmpty := by
  cases h <;> rfl

theorem isStrVal_eq {v : Val} (h : isStrVal v = true) : ∃ s, v = Val.vStr s := by
  cases v with
  | vStr s => exact ⟨s, rfl⟩
  | vNull => simp [isStrVal] at h
  | vBool b => simp [isStrVal] at h
  | vInt m => simp [isStrVal] at h
  | vList l => simp [isStrVal] at h
  | vDict d => simp [isStrVal] at h

theorem entryRel_hasRandomKey {p q : String × Val} (h : entryRel p q) :
    hasRandomKey p.2 = hasRandomKey q.2 := by
  rcases h.2 with he | ⟨_, hs1, hs2⟩
  · rw [he]
  · rcases isStrVal_eq hs1 with ⟨s1, hp⟩
    rcases isStrVal_eq hs2 with ⟨s2, hq⟩
    rw [hp, hq]
    rfl

theorem compPathRel_isSearchable {c c2 : Comp} (h : compPathRel c c2) :
    isSearchable c = isSearchable c2 := by
  induction h with
  | nil => rfl
  | cons hpq hrest ih =>
    simp only [isSearchable, List.any_cons] at ih ⊢
    rw [entryRel_hasRandomKey hpq, ih]

theorem compPathRel_dset {c c2 : Comp} (h : compPathRel c c2) (k : String) (v : Val) :
    compPathRel (dset c k v) (dset c2 k v) := by
  induction h with
  | nil => exact List.Forall₂.cons (entryRel_refl _) List.Forall₂.nil
  | @cons p q as bs hpq hrest ih =>
    by_cases hk : p.1 = k
    · rw [dset, if_pos (by simpa using hk), dset,
        if_pos (by rw [← hpq.1]; simpa using hk)]
      exact List.Forall₂.cons (entryRel_refl _) hrest
    · rw [dset, if_neg (by simpa using hk), dset,
        if_neg (by rw [← hpq.1]; simpa using hk)]
      exact List.Forall₂.cons hpq ih

theorem strVal_some {o : Option Val} {s : String} (h : strVal o = some s) :
    o = some (Val.vStr s) := by
  cases o with
  | none => simp [strVal] at h
  | some v =>
    cases v with
    | vStr t =>
      simp only [strVal, Option.some.injEq] at h
      rw [h]
    | vNull => simp [strVal] at h
    | vBool b => simp [strVal] at h
    | vInt m => simp [strVal] at h
    | vList l => simp [strVal] at h
    | vDict d => simp [strVal] at h

theorem compPathRel_dset_path {c : Comp} {k : String} {s : String}
    (hk : k = "save_path" ∨ k = "load_path") (hget : dget c k = some (Val.vStr s))
    (v : String) : compPathRel c (dset c k (Val.vStr v)) := by
  induction c with
  | nil => simp [dget, List.find?] at hget
  | cons p rest ih =>
    by_cases hp : p.1 = k
    · rw [dset, if_pos (by simpa using hp)]
      have hps : p.2 = Val.vStr s := by
        have h2 := dget_cons_eq rest hp
        rw [hget] at h2
        exact (Option.some.injEq _ _ ▸ h2.symm)
      refine List.Forall₂.cons ⟨hp, Or.inr ⟨by rw [hp]; exact hk, ?_, rfl⟩⟩
        (compPathRel_refl rest)
      rw [hps]
      rfl
    · rw [dset, if_neg (by simpa using hp)]
      exact List.Forall₂.cons (entryRel_refl p)
        (ih (by rw [← dget_cons_ne rest hp]; exact hget))

theorem changeLoadPathComp_pathRel (n : Nat) (root ds : String) (tm : Bool) (c : Comp) :
    compPathRel c (changeLoadPathComp n root ds tm c) := by
  unfold changeLoadPathComp
  by_cases hm : isTrueVal (dget c "main") = true
  · rw [if_pos hm]
    cases hsp : strVal (dget c "save_path") with
    | some sp =>
      simp only []
      have rel1 : compPathRel c
          (dset c "save_path" (Val.vStr (newMainPath root ds n tm sp))) :=
        compPathRel_dset_path (Or.inl rfl) (strVal_some hsp) _
      cases hlp : strVal (dget (dset c "save_path"
          (Val.vStr (newMainPath root ds n tm sp))) "load_path") with
      | some lp =>
        simp only []
        exact compPathRel_trans rel1
          (compPathRel_dset_path (Or.inr rfl) (strVal_some hlp) _)
      | none => exact rel1
    | none =>
      simp only []
      cases hlp : strVal (dget c "load_path") with
      | some lp =>
        simp only []
        exact compPathRel_dset_path (Or.inr rfl) (strVal_some hlp) _
      | none => exact compPathRel_refl c
  · rw [if_neg hm]
    cases hsp : strVal (dget c "save_path") with
    | some sp =>
      simp only []
      exact compPathRel_dset_path (Or.inl rfl) (strVal_some hsp) _
    | none => exact compPathRel_refl c

theorem entryRel_gridAxis {p q : String × Val} (h : entryRel p q) (i : Nat) :
    gridAxisOfEntry i p.1 p.2 = gridAxisOfEntry i q.1 q.2 := by
  rcases h.2 with he | ⟨_, hs1, hs2⟩
  · rw [h.1, he]
  · rcases isStrVal_eq hs1 with ⟨s1, hp⟩
    rcases isStrVal_eq hs2 with ⟨s2, hq⟩
    rw [h.1, hp, hq]
    rfl

theorem compPathRel_gridEntries {c c2 : Comp} (h : compPathRel c c2) (i : Nat) :
    c.filterMap (fun p => gridAxisOfEntry i p.1 p.2) =
      c2.filterMap (fun p => gridAxisOfEntry i p.1 p.2) := by
  induction h with
  | nil => rfl
  | cons hpq hrest ih =>
    simp only [List.filterMap_cons, entryRel_gridAxis hpq i, ih]

theorem gridAxes_rel_from {pv pv2 : List (Option Comp)} (h : stageRel pv pv2) :
    ∀ k, (pv.enumFrom k).flatMap (fun ic =>
      match ic.2 with
      | some c => c.filterMap (fun p => gridAxisOfEntry ic.1 p.1 p.2)
      | none => []) =
    (pv2.enumFrom k).flatMap (fun ic =>
      match ic.2 with
      | some c => c.filterMap (fun p => gridAxisOfEntry ic.1 p.1 p.2)
      | none => []) := by
  induction h with
  | nil => intro k; rfl
  | @cons a b as bs hab hrest ih =>
    intro k
    rw [List.enumFrom_cons, List.enumFrom_cons, List.flatMap_cons, List.flatMap_cons, ih (k + 1)]
    cases a with
    | none =>
      cases b with
      | none => rfl
      | some c2 => exact absurd hab (by simp [candRel])
    | some c =>
      cases b with
      | none => exact absurd hab (by simp [candRel])
      | some c2 =>
        simp only []
        rw [compPathRel_gridEntries hab k]

theorem gridAxes_rel {pv pv2 : List (Option Comp)} (h : stageRel pv pv2) :
    gridAxes pv = gridAxes pv2 := by
  unfold gridAxes
  rw [show pv.enum = pv.enumFrom 0 from rfl, show pv2.enum = pv2.enumFrom 0 from rfl]
  exact gridAxes_rel_from h 0

theorem applyAssign_rel {pv pv2 : List (Option Comp)} (h : stageRel pv pv2) (i : Nat)
    (key : String) (v : Val) :
    stageRel (applyAssign pv i key v) (applyAssign pv2 i key v) := by
  induction h generalizing i with
  | nil => exact List.Forall₂.nil
  | @cons a b as bs hab hrest ih =>
    cases i with
    | zero =>
      refine List.Forall₂.cons ?_ hrest
      cases a with
      | none =>
        cases b with
        | none => trivial
        | some c2 => exact absurd hab (by simp [candRel])
      | some c =>
        cases b with
        | none => exact absurd hab (by simp [candRel])
        | some c2 => exact compPathRel_dset hab key v
    | succ j => exact List.Forall₂.cons hab (ih j)

theorem applyAssigns_rel {pv pv2 : List (Option Comp)} (h : stageRel pv pv2)
    (asn : List (Val × Nat × String)) :
    stageRel (applyAssigns pv asn) (applyAssigns pv2 asn) := by
  induction asn generalizing pv pv2 with
  | nil => exact h
  | cons a asn ih =>
    exact ih (applyAssign_rel h a.2.1 a.2.2 a.1)

theorem forall₂_map_same {α β γ : Type} {S : β → γ → Prop} (l : List α) (f : α → β)
    (g : α → γ) (h : ∀ x ∈ l, S (f x) (g x)) : List.Forall₂ S (l.map f) (l.map g) := by
  induction l with
  | nil => exact List.Forall₂.nil
  | cons x xs ih =>
    exact List.Forall₂.cons (h x (List.mem_cons_self _ _))
      (ih (fun y hy => h y (List.mem_cons_of_mem _ hy)))

theorem gridConfGen_rel {pv pv2 : List (Option Comp)} (h : stageRel pv pv2) :
    List.Forall₂ stageRel (gridConfGen pv) (gridConfGen pv2) := by
  unfold gridConfGen
  rw [gridAxes_rel h]
  exact forall₂_map_same _ _ _ (fun asn _ => applyAssigns_rel h asn)

theorem forall₂_append_rel {α β : Type} {R : α → β → Prop} {a b c d : List _}
    (h1 : List.Forall₂ R a b) (h2 : List.Forall₂ R c d) :
    List.Forall₂ R (a ++ c) (b ++ d) := by
  induction h1 with
  | nil => exact h2
  | cons hab hrest ih => exact List.Forall₂.cons hab ih

theorem forall₂_flatMap {α β γ δ : Type} {R : α → β → Prop} {S : γ → δ → Prop}
    {as : List α} {bs : List β} (h : List.Forall₂ R as bs)
    (f : α → List γ) (g : β → List δ)
    (hf : ∀ a b, R a b → List.Forall₂ S (f a) (g b)) :
    List.Forall₂ S (as.flatMap f) (bs.flatMap g) := by
  induction h with
  | nil => exact List.Forall₂.nil
  | @cons a b as2 bs2 hab hrest ih =>
    rw [List.flatMap_cons, List.flatMap_cons]
    exact forall₂_append_rel (hf a b hab) ih

theorem forall₂_map_same2 {α β γ δ : Type} {R : α → β → Prop} {S : γ → δ → Prop}
    {as : List α} {bs : List β} (h : List.Forall₂ R as bs) (f : α → γ) (g : β → δ)
    (hf : ∀ a b, R a b → S (f a) (g b)) : List.Forall₂ S (as.map f) (bs.map g) := by
  induction h with
  | nil => exact List.Forall₂.nil
  | cons hab hrest ih => exact List.Forall₂.cons (hf _ _ hab) ih

theorem listProd_rel {A B : List (List (Option Comp))} (h : List.Forall₂ stageRel A B) :
    List.Forall₂ stageRel (listProd A) (listProd B) := by
  induction h with
  | nil => exact List.Forall₂.cons List.Forall₂.nil List.Forall₂.nil
  | @cons xs ys A2 B2 hxy hrest ih =>
    exact forall₂_flatMap hxy _ _
      (fun a b hab => forall₂_map_same2 ih _ _ (fun t t2 ht => List.Forall₂.cons hab ht))

theorem isEmpty_of_length_eq {α β : Type} (l1 : List α) (l2 : List β)
    (h : l1.length = l2.length) : l1.isEmpty = l2.isEmpty := by
  cases l1 <;> cases l2 <;> simp_all

theorem randomAxes_rel (sample : Nat → Comp → Comp) (n : Nat)
    {pv pv2 : List (Option Comp)} (h : stageRel pv pv2) : ∀ k k2,
    (randomAxes sample n pv k).map List.length =
      (randomAxes sample n pv2 k2).map List.length := by
  induction h with
  | nil => intro k k2; rfl
  | @cons a b as bs hab hrest ih =>
    intro k k2
    cases a with
    | none =>
      cases b with
      | none => exact ih k k2
      | some c2 => exact absurd hab (by simp [candRel])
    | some c =>
      cases b with
      | none => exact absurd hab (by simp [candRel])
      | some c2 =>
        have hce : c.isEmpty = c2.isEmpty := compPathRel_isEmpty hab
        have hcs : isSearchable c = isSearchable c2 := compPathRel_isSearchable hab
        simp only [randomAxes]
        by_cases he : c.isEmpty = true
        · rw [if_pos he, if_pos (hce.symm.trans he)]
          exact ih k k2
        · rw [if_neg he, if_neg (fun h2 => he (hce.trans h2))]
          by_cases hs : isSearchable c = true
          · rw [if_pos hs, if_pos (hcs.symm.trans hs)]
            simp only [List.map_cons]
            rw [ih (k + n) (k2 + n)]
            congr 1
            simp [sampleRun]
          · rw [if_neg hs, if_neg (fun h2 => hs (hcs.trans h2))]
            simp only [List.map_cons]
            rw [ih k k2]
            rfl

theorem randomConfGen_rel_length (sample : Nat → Comp → Comp) (n : Nat)
    {pv pv2 : List (Option Comp)} (h : stageRel pv pv2) :
    (randomConfGen sample n pv).length = (randomConfGen sample n pv2).length := by
  unfold randomConfGen
  rw [listProd_length, listProd_length, randomAxes_rel sample n h 0 0]

theorem allSome_rel {gp gp2 : List (Option Comp)} (h : stageRel gp gp2) :
    (allSome gp).isSome = (allSome gp2).isSome := by
  induction h with
  | nil => rfl
  | @cons a b as bs hab hrest ih =>
    cases a with
    | none =>
      cases b with
      | none => rfl
      | some c2 => exact absurd hab (by simp [candRel])
    | some c =>
      cases b with
      | none => exact absurd hab (by simp [candRel])
      | some c2 =>
        simp only [allSome]
        cases has : allSome as with
        | none =>
          cases has2 : allSome bs with
          | none => rfl
          | some u => rw [has, has2] at ih; exact absurd ih (by simp)
        | some u =>
          cases has2 : allSome bs with
          | none => rw [has, has2] at ih; exact absurd ih (by simp)
          | some u2 => rfl

/-- The length-and-counter observation of one variant run: all that the
total count depends on. -/
def lenOf (r : Except PyErr (List OutConfig × Nat)) : Except PyErr (Nat × Nat) :=
  r.map (fun x => (x.1.length, x.2))

theorem runGridPipes_rel (s t : GenState) (dr dr2 : Val) (tr tr2 : Comp) (dsn dsn2 : String)
    {pipes pipes2 : List (List (Option Comp))} (h : List.Forall₂ stageRel pipes pipes2) :
    ∀ p, lenOf (runGridPipes s dr tr dsn pipes p) =
      lenOf (runGridPipes t dr2 tr2 dsn2 pipes2 p) := by
  induction h with
  | nil => intro p; rfl
  | @cons gp gp2 rest rest2 hgp hrest ih =>
    intro p
    have hsome := allSome_rel hgp
    simp only [runGridPipes]
    cases ha : allSome gp with
    | none =>
      cases ha2 : allSome gp2 with
      | none => rfl
      | some c2 => rw [ha, ha2] at hsome; exact absurd hsome (by simp)
    | some comps =>
      cases ha2 : allSome gp2 with
      | none => rw [ha, ha2] at hsome; exact absurd hsome (by simp)
      | some comps2 =>
        simp only []
        have hih := ih (p + 1)
        cases hr : runGridPipes s dr tr dsn rest (p + 1) with
        | error e =>
          cases hr2 : runGridPipes t dr2 tr2 dsn2 rest2 (p + 1) with
          | error e2 =>
            rw [hr, hr2] at hih
            simp only [lenOf, Except.map] at hih
            injection hih with he2
            subst he2
            rfl
          | ok pr =>
            rw [hr, hr2] at hih
            simp only [lenOf, Except.map] at hih
            exact Except.noConfusion hih
        | ok pr =>
          cases hr2 : runGridPipes t dr2 tr2 dsn2 rest2 (p + 1) with
          | error e2 =>
            rw [hr, hr2] at hih
            simp only [lenOf, Except.map] at hih
            exact Except.noConfusion hih
          | ok pr2 =>
            rw [hr, hr2] at hih
            simp only [lenOf, Except.map] at hih
            injection hih with hpr
            have h1 : pr.1.length = pr2.1.length := congrArg (fun x => x.1) hpr
            have h2 : pr.2 = pr2.2 := congrArg (fun x => x.2) hpr
            simp only [lenOf, Except.map, List.length_cons]
            rw [h1, h2]

theorem runRandomVariant_rel (s t : GenState) (sample : Nat → Comp → Comp)
    (hN : s.sampleN = t.sampleN) {v w : Variant} (hdr : v.dr = w.dr)
    (hpv : stageRel v.pv w.pv) (p : Nat) :
    lenOf (runRandomVariant s sample v p) = lenOf (runRandomVariant t sample w p) := by
  unfold runRandomVariant
  have hlen : (randomConfGen sample s.sampleN v.pv).length
      = (randomConfGen sample t.sampleN w.pv).length := by
    rw [hN]
    exact randomConfGen_rel_length sample t.sampleN hpv
  have hee := isEmpty_of_length_eq _ _ hlen
  simp only []
  by_cases he : (randomConfGen sample s.sampleN v.pv).isEmpty = true
  · rw [if_pos he, if_pos (hee.symm.trans he)]
  · rw [if_neg he, if_neg (fun h2 => he (hee.trans h2)), hdr]
    cases hg : getDataPath w.dr with
    | error e => rfl
    | ok dsn =>
      simp only [lenOf, Except.map, List.length_map, List.enum_length]
      rw [hlen]

theorem runGridVariant_rel (s t : GenState) {v w : Variant} (hdr : v.dr = w.dr)
    (hpv : stageRel v.pv w.pv) (p : Nat) :
    lenOf (runGridVariant s v p) = lenOf (runGridVariant t w p) := by
  unfold runGridVariant
  have hg := gridConfGen_rel hpv
  have hee := isEmpty_of_length_eq _ _ hg.length_eq
  simp only []
  by_cases he : (gridConfGen v.pv).isEmpty = true
  · rw [if_pos he, if_pos (hee.symm.trans he)]
  · rw [if_neg he, if_neg (fun h2 => he (hee.trans h2)), hdr]
    cases hgd : getDataPath w.dr with
    | error e => rfl
    | ok dsn =>
      simp only []
      exact runGridPipes_rel s t w.dr w.dr v.train w.train dsn dsn hg p

theorem runVariant_rel (s t : GenState) (sample : Nat → Comp → Comp) (hrel : stateRel s t)
    {v w : Variant} (hdr : v.dr = w.dr) (hpv : stageRel v.pv w.pv) (p : Nat) :
    lenOf (runVariant s sample v p) = lenOf (runVariant t sample w p) := by
  obtain ⟨h1, h2, h3, h4, h5, h6, h7, h8, h9⟩ := hrel
  unfold runVariant
  rw [h4]
  by_cases hm : (t.mode == "random") = true
  · rw [if_pos hm, if_pos hm]
    exact runRandomVariant_rel s t sample h7 hdr hpv p
  · rw [if_neg hm, if_neg hm]
    exact runGridVariant_rel s t hdr hpv p

/-- Raw variants whose run lengths must agree: equal reader, path-related
stage candidates (the train block does not influence the count). -/
def varRel (v w : Variant) : Prop := v.dr = w.dr ∧ stageRel v.pv w.pv

theorem runVariants_rel (s t : GenState) (sample : Nat → Comp → Comp) (hrel : stateRel s t)
    {vs ws : List Variant} (h : List.Forall₂ varRel vs ws) : ∀ p,
    (runVariants s sample vs p).map List.length =
      (runVariants t sample ws p).map List.length := by
  induction h with
  | nil => intro p; rfl
  | @cons v w vs2 ws2 hvw hrest ih =>
    intro p
    simp only [runVariants]
    have h1 := runVariant_rel s t sample hrel hvw.1 hvw.2 p
    cases hr : runVariant s sample v p with
    | error e =>
      cases hr2 : runVariant t sample w p with
      | error e2 =>
        rw [hr, hr2] at h1
        simp only [lenOf, Except.map] at h1
        injection h1 with he2
        subst he2
        rfl
      | ok pr =>
        rw [hr, hr2] at h1
        simp only [lenOf, Except.map] at h1
        exact Except.noConfusion h1
    | ok pr =>
      cases hr2 : runVariant t sample w p with
      | error e2 =>
        rw [hr, hr2] at h1
        simp only [lenOf, Except.map] at h1
        exact Except.noConfusion h1
      | ok pr2 =>
        rw [hr, hr2] at h1
        simp only [lenOf, Except.map] at h1
        injection h1 with hpr
        have hl : pr.1.length = pr2.1.length := congrArg (fun x => x.1) hpr
        have hp2 : pr.2 = pr2.2 := congrArg (fun x => x.2) hpr
        simp only []
        rw [← hp2]
        have hih := ih pr.2
        cases hv : runVariants s sample vs2 pr.2 with
        | error e =>
          cases hv2 : runVariants t sample ws2 pr.2 with
          | error e2 =>
            rw [hv, hv2] at hih
            simp only [Except.map] at hih
            injection hih with he2
            subst he2
            rfl
          | ok more =>
            rw [hv, hv2] at hih
            simp only [Except.map] at hih
            exact Except.noConfusion hih
        | ok more =>
          cases hv2 : runVariants t sample ws2 pr.2 with
          | error e2 =>
            rw [hv, hv2] at hih
            simp only [Except.map] at hih
            exact Except.noConfusion hih
          | ok more2 =>
            rw [hv, hv2] at hih
            simp only [Except.map] at hih
            injection hih with hm
            simp only [Except.map, List.length_append]
            rw [hl, hm]

theorem forall₂_eq_refl {α : Type} (l : List α) : List.Forall₂ Eq l l := by
  induction l with
  | nil => exact List.Forall₂.nil
  | cons x xs ih => exact List.Forall₂.cons rfl ih

theorem pipelineEnumeration_rel {s t : GenState} (h : stateRel s t) :
    List.Forall₂ varRel (pipelineEnumeration s) (pipelineEnumeration t) := by
  obtain ⟨h1, h2, h3, h4, h5, h6, h7, h8, h9⟩ := h
  unfold pipelineEnumeration
  rw [h1, h3]
  refine forall₂_flatMap (forall₂_eq_refl _) _ _ ?_
  intro dr dr2 hdr
  subst hdr
  refine forall₂_flatMap (forall₂_eq_refl _) _ _ ?_
  intro bs bs2 hbs
  subst hbs
  refine forall₂_map_same2 (listProd_rel h9) _ _ ?_
  intro pv pv2 hpv
  exact ⟨rfl, hpv⟩

/-- **C8.** `get_len` drains one throwaway run of the pipeline for its count
and then the consumer drains the real one (pipegen.py lines 104-116, 324-325).
The drain's only side effects on the template state are in-place rewrites of
`save_path`/`load_path` strings inside stage components plus an overwrite of
the chainer's `pipe` entry: the first conjunct shows every per-component
rewrite stays within `compPathRel`, and the second that the run count is
invariant under any such state difference (`stateRel` allows path-related
stage components and an arbitrary chainer), so the consumed sequence's length
equals the previously computed one. -/
theorem c8_get_len_then_consume :
    (∀ (n : Nat) (root ds : String) (tm : Bool) (c : Comp),
        compPathRel c (changeLoadPathComp n root ds tm c)) ∧
    (∀ (s t : GenState) (sample : Nat → Comp → Comp),
        stateRel s t → (pipelineGen t sample).map List.length = genLen s sample) := by
  constructor
  · exact changeLoadPathComp_pathRel
  · intro s t sample h
    unfold genLen pipelineGen
    exact (runVariants_rel s t sample h (pipelineEnumeration_rel h) 0).symm

/-- A one-stage template as `get_len` first sees it. -/
def c8comp : Comp :=
  [("component_name", Val.vStr "a"), ("main", Val.vBool true),
   ("save_path", Val.vStr "model/model.bin")]

/-- The same component after the drain rewrote its `save_path` in place. -/
def c8comp2 : Comp :=
  [("component_name", Val.vStr "a"), ("main", Val.vBool true),
   ("save_path", Val.vStr "root/dstc2/pipe_1/model.bin")]

/-- The template state before `get_len`. -/
def c8s : GenState :=
  { datasetReader := Val.vDict [("data_path", Val.vStr "data/dstc2")]
  , datasetIterator := Val.vDict []
  , trainConfig := [("epochs", Val.vInt 5)]
  , chainer := [("in", Val.vStr "x")]
  , struct := [[some c8comp, none]]
  , mode := "random"
  , testMode := false
  , savePath := "root"
  , sampleN := 2
  , metadata := none }

/-- The state `get_len` leaves behind: path rewritten, chainer overwritten. -/
def c8t : GenState :=
  { datasetReader := Val.vDict [("data_path", Val.vStr "data/dstc2")]
  , datasetIterator := Val.vDict []
  , trainConfig := [("epochs", Val.vInt 5)]
  , chainer := [("in", Val.vStr "x"), ("pipe", Val.vList [Val.vDict c8comp2])]
  , struct := [[some c8comp2, none]]
  , mode := "random"
  , testMode := false
  , savePath := "root"
  , sampleN := 2
  , metadata := none }

theorem c8_get_len_then_consume_witness :
    stateRel c8s c8t ∧
    ((pipelineGen c8t sampleId).map List.length = genLen c8s sampleId ∧
      genLen c8s sampleId = Except.ok 2) := by
  have hrel : stateRel c8s c8t := by
    refine ⟨rfl, rfl, rfl, rfl, rfl, rfl, rfl, rfl, ?_⟩
    refine List.Forall₂.cons (List.Forall₂.cons ?_ (List.Forall₂.cons trivial List.Forall₂.nil))
      List.Forall₂.nil
    exact List.Forall₂.cons ⟨rfl, Or.inl rfl⟩
      (List.Forall₂.cons ⟨rfl, Or.inl rfl⟩
        (List.Forall₂.cons ⟨rfl, Or.inr ⟨Or.inl rfl, rfl, rfl⟩⟩ List.Forall₂.nil))
  exact ⟨hrel, c8_get_len_then_consume.2 c8s c8t sampleId hrel, rfl⟩
